import Mathlib

/-!
macdylibbundler: the dependency registry and the bundling driver.

A shallow embedding of `src/DylibBundler.cpp`.

* `std::string` is `List Char`; positions are `size_t` values, that is naturals below
  `2 ^ 64` with `npos = 2 ^ 64 - 1` and wrap-around subtraction and addition.
* The five global containers of the translation unit are the fields of `State`.
  `std::map` is a function to `Option` (`none`: no entry), `operator[]` creates the
  entry, `find` does not.  `std::set` is a sorted list without repetition.
* `exit(1)` is the `exit` constructor of `Outcome` and `Res`; it keeps the state
  reached at that moment.
* Every effect on the outside world (console output, inspector run, shell command,
  copy, edit) is appended to `State.log`, together with an entry for each call of
  `addDependency`, `createDestDir`, `changeLibPathsOnFile` and `fixRpathsOnFile`.
* `Dependency.h`, `Settings.h` and `Utils.h` are not part of the sources; what the
  driver uses of them is collected in `Env` and is a parameter of every function.
  The collaborators are deterministic functions of their request.
* `int` loop counters are naturals: a vector never holds `2 ^ 31` elements.
-/

namespace DylibBundler

/-- The type `std::string`. -/
abbrev Str := List Char

/-- The constant `std::string::npos` of a 64-bit `size_t`. -/
def npos : Nat := 2 ^ 64 - 1

/-- Subtraction of `size_t` values. -/
def size_sub (a b : Nat) : Nat := (a + 2 ^ 64 - b) % 2 ^ 64

/-- Addition of `size_t` values. -/
def size_add (a b : Nat) : Nat := (a + b) % 2 ^ 64

/-- Index of the first occurrence of `pat` in `s`, if any. -/
def findIdx (s pat : Str) : Option Nat :=
  match s with
  | [] => if pat.isPrefixOf [] then some 0 else none
  | c :: t =>
    if pat.isPrefixOf (c :: t) then some 0
    else match findIdx t pat with
      | some i => some (i + 1)
      | none => none

/-- Index of the last occurrence of `pat` in `s`, if any. -/
def rfindIdx (s pat : Str) : Option Nat :=
  match s with
  | [] => if pat.isPrefixOf [] then some 0 else none
  | c :: t =>
    match rfindIdx t pat with
    | some i => some (i + 1)
    | none => if pat.isPrefixOf (c :: t) then some 0 else none

/-- The call `s.find(pat)`. -/
def find (s pat : Str) : Nat := (findIdx s pat).getD npos

/-- The call `s.rfind(pat)`. -/
def rfind (s pat : Str) : Nat := (rfindIdx s pat).getD npos

/-- The call `s.substr(pos, len)` for `pos <= s.size()`. -/
def substr (s : Str) (pos len : Nat) : Str := (s.drop pos).take len

/-- The tab character. -/
def tab : Char := Char.ofNat 9

/-- The newline character. -/
def newline : Char := Char.ofNat 10

/-- Order of `std::string`: lexicographic on the character codes. -/
def strLt : Str → Str → Bool
  | [], [] => false
  | [], _ :: _ => true
  | _ :: _, [] => false
  | a :: s, b :: t =>
    if a.toNat < b.toNat then true
    else if b.toNat < a.toNat then false
    else strLt s t

/-- The call `set.insert(x)` on a `std::set<std::string>`. -/
def setInsert (x : Str) : List Str → List Str
  | [] => [x]
  | y :: ys =>
    if strLt x y then x :: y :: ys
    else if strLt y x then y :: setInsert x ys
    else y :: ys

/-- Assignment `m[k] = v` on a `std::map` with `std::string` keys. -/
def mapSet {α : Type} (m : Str → Option α) (k : Str) (v : α) : Str → Option α :=
  fun k1 => if k1 = k then some v else m k1

/-- The source functions whose calls are recorded in the log. -/
inductive Fn
  | addDependency
  | createDestDir
  | changeLibPathsOnFile
  | fixRpathsOnFile
  deriving DecidableEq, Repr

/-- One entry of the log of a run. -/
inductive Event (Dep : Type)
  | cout (text : Str)
  | cerr (text : Str)
  | system_get_output (cmd : Str)
  | systemp (cmd : Str)
  | getUserInputDirForFile (file : Str)
  | print (d : Dep)
  | copyYourself (d : Dep)
  | fixFileThatDependsOnMe (d : Dep) (file : Str)
  | call (fn : Fn) (args : List Str)
  deriving DecidableEq

/-- What `DylibBundler.cpp` uses of `Dependency.h`, `Settings.h`, `Utils.h` and libc. -/
structure Env (Dep : Type) where
  /-- The constructor `Dependency dep(path)`. -/
  mkDependency : Str → Dep
  /-- The call `this->mergeIfSameAs(dep2)`: the answer and `dep2` afterwards. -/
  mergeIfSameAs : Dep → Dep → Bool × Dep
  getPrefix : Dep → Str
  getOriginalPath : Dep → Str
  getInstallPath : Dep → Str
  /-- Whether `copyYourself()` returns (`false`: it ends the process). -/
  copyYourself : Dep → Bool
  /-- Whether `fixFileThatDependsOnMe(file)` returns (`false`: it ends the process). -/
  fixFileThatDependsOnMe : Dep → Str → Bool
  isPrefixBundled : Str → Bool
  inside_lib_path : Str
  destFolder : Str
  canOverwriteDir : Bool
  canCreateDir : Bool
  bundleLibs : Bool
  /-- The values `Settings::fileToFix(0)` ... `Settings::fileToFix(fileToFixAmount() - 1)`. -/
  filesToFix : List Str
  fileExists : Str → Bool
  system_get_output : Str → Str
  systemp : Str → Int
  /-- The call `tokenize(str, "\n", &out)`: the tokens appended to `out`. -/
  tokenize : Str → List Str
  realpath : Str → Option Str
  getUserInputDirForFile : Str → Str

/-- The global variables of `DylibBundler.cpp` and the log of the run. -/
structure State (Dep : Type) where
  deps : List Dep
  deps_per_file : Str → Option (List Dep)
  deps_collected : Str → Option Bool
  rpaths : List Str
  rpaths_per_file : Str → Option (List Str)
  log : List (Event Dep)

/-- The state at process start. -/
def State.empty {Dep : Type} : State Dep :=
  { deps := [], deps_per_file := fun _ => none, deps_collected := fun _ => none,
    rpaths := [], rpaths_per_file := fun _ => none, log := [] }

/-- Append one entry to the log. -/
def State.emit {Dep : Type} (s : State Dep) (e : Event Dep) : State Dep :=
  { s with log := s.log ++ [e] }

/-- Result of a `void` function: it returned, or it called `exit(code)`. -/
inductive Outcome (Dep : Type)
  | done (s : State Dep)
  | exit (code : Nat) (s : State Dep)

/-- Result of a function that hands back a value. -/
inductive Res (Dep : Type) (α : Type)
  | done (a : α) (s : State Dep)
  | exit (code : Nat) (s : State Dep)

/-- The state an outcome carries. -/
def Outcome.state {Dep : Type} : Outcome Dep → State Dep
  | .done s => s
  | .exit _ s => s

/-- The state a result carries. -/
def Res.state {Dep α : Type} : Res Dep α → State Dep
  | .done _ s => s
  | .exit _ s => s

/-- The function `isRpath`. -/
def isRpath (path : Str) : Bool :=
  find path "@rpath".toList == 0 || find path "@loader_path".toList == 0

/-- The `while` loop of `collectRpaths`, on the lines from `pos` on. -/
def collectRpathsLoop {Dep : Type} (filename : Str) : Bool → List Str → State Dep → State Dep
  | _, [], s => s
  | true, line :: rest, s =>
    let start_pos := find line "path ".toList
    let end_pos := find line " (".toList
    if start_pos = npos ∨ end_pos = npos then
      collectRpathsLoop filename true rest
        (s.emit (.cerr "\n/!\\ WARNING: Unexpected LC_RPATH format\n".toList))
    else
      let start_pos := size_add start_pos 5
      let rpath := substr line start_pos (size_sub end_pos start_pos)
      collectRpathsLoop filename false rest
        { s with
          rpaths := setInsert rpath s.rpaths
          rpaths_per_file :=
            mapSet s.rpaths_per_file filename ((s.rpaths_per_file filename).getD [] ++ [rpath]) }
  | false, line :: rest, s =>
    if find line "LC_RPATH".toList ≠ npos then
      match rest with
      | [] => s
      | _ :: rest1 => collectRpathsLoop filename true rest1 s
    else collectRpathsLoop filename false rest s

/-- The string `cmd` of `collectRpaths`. -/
def rpathsCmd (filename : Str) : Str := "otool -l ".toList ++ filename

/-- The function `collectRpaths`. -/
def collectRpaths {Dep : Type} (E : Env Dep) (filename : Str) (s : State Dep) : State Dep :=
  if E.fileExists filename = false then
    s.emit (.cerr ("\n/!\\ WARNING : can't collect rpaths for nonexistent file '".toList
      ++ filename ++ "'\n".toList))
  else
    collectRpathsLoop filename false (E.tokenize (E.system_get_output (rpathsCmd filename)))
      (s.emit (.system_get_output (rpathsCmd filename)))

/-- The function `collectRpathsForFilename`. -/
def collectRpathsForFilename {Dep : Type} (E : Env Dep) (filename : Str) (s : State Dep) :
    State Dep :=
  if s.rpaths_per_file filename = none then collectRpaths E filename s else s

/-- The string `command` of `fixRpathsOnFile` for the entry `rpath`. -/
def rpathEdit {Dep : Type} (E : Env Dep) (file_to_fix rpath : Str) : Str :=
  "install_name_tool -rpath \"".toList ++ rpath ++ "\" \"".toList
    ++ E.inside_lib_path ++ "\" \"".toList ++ file_to_fix ++ "\"".toList

/-- The `for` loop of `fixRpathsOnFile` over `rpaths_to_fix`. -/
def fixRpathsLoop {Dep : Type} (E : Env Dep) (file_to_fix : Str) :
    List Str → State Dep → Outcome Dep
  | [], s => .done s
  | r :: rest, s =>
    if E.systemp (rpathEdit E file_to_fix r) ≠ 0 then
      .exit 1 ((s.emit (.systemp (rpathEdit E file_to_fix r))).emit
        (.cerr ("\n\nError : An error occured while trying to fix dependencies of ".toList
          ++ file_to_fix ++ "\n".toList)))
    else fixRpathsLoop E file_to_fix rest (s.emit (.systemp (rpathEdit E file_to_fix r)))

/-- The function `fixRpathsOnFile`. -/
def fixRpathsOnFile {Dep : Type} (E : Env Dep) (original_file file_to_fix : Str)
    (s : State Dep) : Outcome Dep :=
  let rpaths_to_fix : List Str :=
    match s.rpaths_per_file original_file with
    | some v => v
    | none => []
  fixRpathsLoop E file_to_fix rpaths_to_fix
    (s.emit (.call .fixRpathsOnFile [original_file, file_to_fix]))

/-- A loop `if(dep.mergeIfSameAs(v[n])) found = true;` over a whole vector: the flag and
the vector afterwards. -/
def mergeLoop {Dep : Type} (E : Env Dep) (dep : Dep) : List Dep → Bool × List Dep
  | [] => (false, [])
  | d :: ds =>
    ((E.mergeIfSameAs dep d).1 || (mergeLoop E dep ds).1,
      (E.mergeIfSameAs dep d).2 :: (mergeLoop E dep ds).2)

/-- The function `addDependency`. -/
def addDependency {Dep : Type} (E : Env Dep) (path filename : Str) (s : State Dep) :
    State Dep :=
  let dep := E.mkDependency path
  let in_deps := (mergeLoop E dep s.deps).1
  let deps_in_file := (s.deps_per_file filename).getD []
  let in_deps_per_file := (mergeLoop E dep deps_in_file).1
  let s1 : State Dep :=
    { s with
      deps := (mergeLoop E dep s.deps).2
      deps_per_file := mapSet s.deps_per_file filename deps_in_file
      log := s.log ++ [.call .addDependency [path, filename]] }
  if E.isPrefixBundled (E.getPrefix dep) = false then s1
  else
    let s2 : State Dep := if in_deps = false then { s1 with deps := s1.deps ++ [dep] } else s1
    if in_deps_per_file = false then
      { s2 with deps_per_file := mapSet s2.deps_per_file filename (deps_in_file ++ [dep]) }
    else s2

/-- The string `cmd` of `collectDependencies(filename, lines)`. -/
def otoolCmd (filename : Str) : Str := "otool -l \"".toList ++ filename ++ "\"".toList

/-- The test of `collectDependencies(filename, lines)` on the output of the inspector:
it carries a not-found signal or is empty. -/
def notFound (output : Str) : Bool :=
  find output "can't open file".toList != npos || find output "No such file".toList != npos
    || decide (output.length < 1)

/-- The range-`for` loop of `collectDependencies(filename, lines)`. -/
def collectDependenciesLoop {Dep : Type} :
    Bool → List Str → List Str → State Dep → Res Dep (List Str)
  | _, [], lines, s => .done lines s
  | searching, line :: rest, lines, s =>
    if find line "cmd LC_LOAD_DYLIB".toList ≠ npos then
      if searching then
        .exit 1 (s.emit (.cerr "\n\n/!\\ ERROR: Failed to find name before next cmd\n".toList))
      else collectDependenciesLoop true rest lines s
    else if searching then
      let found := find line "name ".toList
      if found ≠ npos then
        collectDependenciesLoop false rest
          (lines ++ [tab :: substr line (size_add found 5) npos]) s
      else collectDependenciesLoop searching rest lines s
    else collectDependenciesLoop searching rest lines s

/-- The overload `collectDependencies(std::string filename, std::vector<std::string>& lines)`. -/
def collectDependencies_lines {Dep : Type} (E : Env Dep) (filename : Str) (lines : List Str)
    (s : State Dep) : Res Dep (List Str) :=
  let s2 := (s.emit (.cerr ("Open ".toList ++ filename ++ [newline]))).emit
    (.system_get_output (otoolCmd filename))
  if notFound (E.system_get_output (otoolCmd filename)) then
    .exit 1 (s2.emit (.cerr ("Cannot find file ".toList ++ filename
      ++ " to read its dependencies\n".toList)))
  else collectDependenciesLoop false (E.tokenize (E.system_get_output (otoolCmd filename)))
    lines s2

/-- The `for` loop of `collectDependencies(std::string filename)` over `lines`. -/
def collectDependenciesEach {Dep : Type} (E : Env Dep) (filename : Str) :
    List Str → State Dep → State Dep
  | [], s => s
  | line :: rest, s =>
    if line.head? ≠ some tab then collectDependenciesEach E filename rest s
    else if find line ".framework".toList ≠ npos then collectDependenciesEach E filename rest s
    else
      let dep_path := substr line 1 (size_sub (rfind line " (".toList) 1)
      let s1 := if isRpath dep_path then collectRpathsForFilename E filename s else s
      collectDependenciesEach E filename rest (addDependency E dep_path filename s1)

/-- The overload `collectDependencies(std::string filename)`. -/
def collectDependencies {Dep : Type} (E : Env Dep) (filename : Str) (s : State Dep) :
    Outcome Dep :=
  match collectDependencies_lines E filename [] s with
  | .exit c s1 => .exit c s1
  | .done lines s1 =>
    let s2 := collectDependenciesEach E filename lines s1
    .done { s2 with deps_collected := mapSet s2.deps_collected filename true }

/-- The function `createDestDir`. -/
def createDestDir {Dep : Type} (E : Env Dep) (s : State Dep) : Outcome Dep :=
  let dest_folder := E.destFolder
  let s1 := (s.emit (.call .createDestDir [])).emit
    (.cout ("* Checking output directory ".toList ++ dest_folder ++ [newline]))
  let dest_exists := E.fileExists dest_folder
  let erase : Outcome Dep × Bool :=
    if dest_exists && E.canOverwriteDir then
      let s2 := s1.emit (.cout ("* Erasing old output directory ".toList ++ dest_folder
        ++ [newline]))
      let command := "rm -r \"".toList ++ dest_folder ++ "\"".toList
      if E.systemp command ≠ 0 then
        (.exit 1 ((s2.emit (.systemp command)).emit (.cerr
          "\n\nError : An error occured while attempting to overwrite dest folder.\n".toList)),
          dest_exists)
      else (.done (s2.emit (.systemp command)), false)
    else (.done s1, dest_exists)
  match erase with
  | (.exit c s2, _) => .exit c s2
  | (.done s2, dest_exists1) =>
    if dest_exists1 = false then
      if E.canCreateDir then
        let s3 := s2.emit (.cout ("* Creating output directory ".toList ++ dest_folder
          ++ [newline]))
        let command := "mkdir -p \"".toList ++ dest_folder ++ "\"".toList
        if E.systemp command ≠ 0 then
          .exit 1 ((s3.emit (.systemp command)).emit (.cerr
            "\n\nError : An error occured while creating dest folder.\n".toList))
        else .done (s3.emit (.systemp command))
      else
        .exit 1 (s2.emit (.cerr ("\n\nError : Dest folder does not exist. Create it or pass "
          ++ "the appropriate flag for automatic dest dir creation.\n").toList))
    else .done s2

/-- The `for` loop of `changeLibPathsOnFile` over the copy `deps_in_file`. -/
def changeLibPathsLoop {Dep : Type} (E : Env Dep) (file_to_fix : Str) :
    List Dep → State Dep → Outcome Dep
  | [], s => .done s
  | d :: rest, s =>
    if E.fixFileThatDependsOnMe d file_to_fix = false then
      .exit 1 (s.emit (.fixFileThatDependsOnMe d file_to_fix))
    else changeLibPathsLoop E file_to_fix rest (s.emit (.fixFileThatDependsOnMe d file_to_fix))

/-- The function `changeLibPathsOnFile`. -/
def changeLibPathsOnFile {Dep : Type} (E : Env Dep) (file_to_fix : Str) (s : State Dep) :
    Outcome Dep :=
  let s0 := s.emit (.call .changeLibPathsOnFile [file_to_fix])
  let collected : Outcome Dep :=
    if s0.deps_collected file_to_fix = none then collectDependencies E file_to_fix s0
    else .done s0
  match collected with
  | .exit c s1 => .exit c s1
  | .done s1 =>
    let s2 := s1.emit (.cout ("\n* Fixing dependencies on ".toList ++ file_to_fix ++ [newline]))
    let deps_in_file := (s2.deps_per_file file_to_fix).getD []
    changeLibPathsLoop E file_to_fix deps_in_file
      { s2 with deps_per_file := mapSet s2.deps_per_file file_to_fix deps_in_file }

/-- The first `for` loop of `doneWithDeps_go`: `deps[n].print()` for `count` indices
from `n` on. -/
def printLoop {Dep : Type} : Nat → Nat → State Dep → State Dep
  | 0, _, s => s
  | count + 1, n, s =>
    match s.deps[n]? with
    | none => s
    | some d => printLoop count (n + 1) (s.emit (.print d))

/-- The second `for` loop of `doneWithDeps_go`, with `count = dep_amount - n` iterations
left; `deps[n]` is read anew for every use. -/
def installLoop {Dep : Type} (E : Env Dep) : Nat → Nat → State Dep → Outcome Dep
  | 0, _, s => .done s
  | count + 1, n, s =>
    match s.deps[n]? with
    | none => .done s
    | some d =>
      if E.copyYourself d = false then .exit 1 (s.emit (.copyYourself d))
      else
        match changeLibPathsOnFile E (E.getInstallPath d) (s.emit (.copyYourself d)) with
        | .exit c s1 => .exit c s1
        | .done s1 =>
          match s1.deps[n]? with
          | none => .done s1
          | some d1 =>
            match fixRpathsOnFile E (E.getOriginalPath d1) (E.getInstallPath d1) s1 with
            | .exit c s2 => .exit c s2
            | .done s2 => installLoop E count (n + 1) s2

/-- The last `for` loop of `doneWithDeps_go`, over the files to fix. -/
def fixFilesLoop {Dep : Type} (E : Env Dep) : List Str → State Dep → Outcome Dep
  | [], s => .done s
  | f :: rest, s =>
    match changeLibPathsOnFile E f s with
    | .exit c s1 => .exit c s1
    | .done s1 =>
      match fixRpathsOnFile E f f s1 with
      | .exit c s2 => .exit c s2
      | .done s2 => fixFilesLoop E rest s2

/-- The function `doneWithDeps_go`. -/
def doneWithDeps_go {Dep : Type} (E : Env Dep) (s : State Dep) : Outcome Dep :=
  let dep_amount := s.deps.length
  let s1 := (printLoop dep_amount 0 (s.emit (.cout [newline]))).emit (.cout [newline])
  let bundled : Outcome Dep :=
    if E.bundleLibs then
      match createDestDir E s1 with
      | .exit c s2 => .exit c s2
      | .done s2 => installLoop E dep_amount 0 s2
    else .done s1
  match bundled with
  | .exit c s2 => .exit c s2
  | .done s2 => fixFilesLoop E E.filesToFix s2

/-! ### Vocabulary of the statements -/

/-- The records `a` and `b` are the same dependency: `a.mergeIfSameAs(b)` answers true. -/
def same {Dep : Type} (E : Env Dep) (a b : Dep) : Bool := (E.mergeIfSameAs a b).1

/-- The vector `deps_per_file[file]`, empty when the map has no entry. -/
def State.perFile {Dep : Type} (s : State Dep) (file : Str) : List Dep :=
  (s.deps_per_file file).getD []

/-- The vector `rpaths_per_file[file]`, empty when the map has no entry. -/
def State.rpathsOf {Dep : Type} (s : State Dep) (file : Str) : List Str :=
  (s.rpaths_per_file file).getD []

/-- A sequence of calls `addDependency(path, filename)`, given as pairs `(path, filename)`. -/
def addAll {Dep : Type} (E : Env Dep) (calls : List (Str × Str)) (s : State Dep) : State Dep :=
  calls.foldl (fun t c => addDependency E c.1 c.2 t) s

/-- The candidate built from `path` passes the bundle-inclusion policy. -/
def passes {Dep : Type} (E : Env Dep) (path : Str) : Bool :=
  E.isPrefixBundled (E.getPrefix (E.mkDependency path))

/-- What the statements on merging assume of `Dependency::mergeIfSameAs`, which is not
part of the sources: being the same dependency is agreement on a key of the record
(its file name), and the merge leaves the key of the record it updates alone. -/
structure LawfulMerge {Dep κ : Type} (E : Env Dep) (key : Dep → κ) : Prop where
  same_iff : ∀ a b, (E.mergeIfSameAs a b).1 = true ↔ key a = key b
  key_merged : ∀ a b, key (E.mergeIfSameAs a b).2 = key b

/-- The merge of `Dependency::mergeIfSameAs` leaves both paths of the record it updates
alone. -/
def KeepsPaths {Dep : Type} (E : Env Dep) : Prop :=
  ∀ a b, E.getOriginalPath (E.mergeIfSameAs a b).2 = E.getOriginalPath b
    ∧ E.getInstallPath (E.mergeIfSameAs a b).2 = E.getInstallPath b

/-- The shell commands in a log, in order. -/
def shellCommands {Dep : Type} (log : List (Event Dep)) : List Str :=
  log.filterMap (fun e => match e with
    | .systemp cmd => some cmd
    | _ => none)

/-- The inspector runs in a log, in order. -/
def inspectorRuns {Dep : Type} (log : List (Event Dep)) : List Str :=
  log.filterMap (fun e => match e with
    | .system_get_output cmd => some cmd
    | _ => none)

/-- The arguments of the calls of `fn` in a log, in order. -/
def callsOf {Dep : Type} (fn : Fn) (log : List (Event Dep)) : List (List Str) :=
  log.filterMap (fun e => match e with
    | .call g args => if g = fn then some args else none
    | _ => none)

/-- The line holds `cmd LC_LOAD_DYLIB`. -/
def isLoadCmd (line : Str) : Bool := find line "cmd LC_LOAD_DYLIB".toList != npos

/-- The line holds `name `. -/
def hasName (line : Str) : Bool := find line "name ".toList != npos

/-- After a load command: the next load command comes before any line with `name `. -/
def cmdBeforeName : List Str → Bool
  | [] => false
  | l :: rest => if isLoadCmd l then true else if hasName l then false else cmdBeforeName rest

/-- Some load command of the lines is followed by another one before any line with
`name `. -/
def nameMissing : List Str → Bool
  | [] => false
  | l :: rest => (isLoadCmd l && cmdBeforeName rest) || nameMissing rest

/-- The warning of `collectRpaths` on an entry it cannot read. -/
def rpathWarning {Dep : Type} : Event Dep :=
  .cerr "\n/!\\ WARNING: Unexpected LC_RPATH format\n".toList

/-- The text after the first `name ` of a line. -/
def textAfterName (line : Str) : Str :=
  match findIdx line "name ".toList with
  | some i => line.drop (i + 5)
  | none => []

/-- The text up to its last ` (`, that one left out; the whole text when it has none. -/
def beforeLastParen (t : Str) : Str :=
  match rfindIdx t " (".toList with
  | some i => t.take i
  | none => t

/-- The name line of a load command, looked for in the lines after it up to the next
load command: the first line with `name `. -/
def nameLine : List Str → Option Str
  | [] => none
  | l :: rest => if isLoadCmd l then none else if hasName l then some l else nameLine rest

/-- The reference a name line stands for: none when the text after `name ` holds
`.framework`. -/
def nameLineRef (nl : Str) : List Str :=
  if (findIdx (textAfterName nl) ".framework".toList).isSome then []
  else [beforeLastParen (textAfterName nl)]

/-- The references of an inspector output, one for each load command that has a name
line with a reference, in the order of the commands. -/
def loadCommandRefs : List Str → List Str
  | [] => []
  | l :: rest =>
    if isLoadCmd l then
      (match nameLine rest with
        | some nl => nameLineRef nl
        | none => []) ++ loadCommandRefs rest
    else loadCommandRefs rest

/-- The reference a name line stands for when, as claim C10 has it, a name line that
holds `.framework` anywhere stands for none. -/
def nameLineRefAsStated (nl : Str) : List Str :=
  if (findIdx nl ".framework".toList).isSome then []
  else [beforeLastParen (textAfterName nl)]

/-- The references of an inspector output as claim C10 lists them. -/
def loadCommandRefsAsStated : List Str → List Str
  | [] => []
  | l :: rest =>
    if isLoadCmd l then
      (match nameLine rest with
        | some nl => nameLineRefAsStated nl
        | none => []) ++ loadCommandRefsAsStated rest
    else loadCommandRefsAsStated rest

/-- The reference `collectDependencies(filename)` takes from an element of `lines`. -/
def lineRef (line : Str) : List Str :=
  if line.head? ≠ some tab then []
  else if find line ".framework".toList ≠ npos then []
  else [substr line 1 (size_sub (rfind line " (".toList) 1)]

/-- The entries that inspecting a file adds to the log: messages on `cerr`, inspector
runs, questions to the user and calls of `addDependency`. -/
def Event.isInspection {Dep : Type} : Event Dep → Bool
  | .cerr _ => true
  | .system_get_output _ => true
  | .getUserInputDirForFile _ => true
  | .call .addDependency _ => true
  | _ => false

/-- From `s` to `t` the log grows by entries that satisfy `P`, and the global list keeps
its records in place, up to what `view` shows of a record, and may grow at its end. -/
def Grows {Dep α : Type} (view : Dep → α) (P : Event Dep → Prop) (s t : State Dep) : Prop :=
  (∃ evs, t.log = s.log ++ evs ∧ ∀ e ∈ evs, P e) ∧ s.deps.map view <+: t.deps.map view

/-- The original path and the install path of a record. -/
def paths {Dep : Type} (E : Env Dep) (d : Dep) : Str × Str :=
  (E.getOriginalPath d, E.getInstallPath d)

/-- The steps of `doneWithDeps_go`. -/
inductive Step (Dep : Type)
  | summary (d : Dep)
  | createDestDir
  | copyYourself (original install : Str)
  | changeLibPathsOnFile (file : Str)
  | fixRpathsOnFile (original_file file_to_fix : Str)
  deriving DecidableEq

/-- The step a log entry stands for, if any. -/
def stepOf {Dep : Type} (E : Env Dep) : Event Dep → Option (Step Dep)
  | .print d => some (.summary d)
  | .copyYourself d => some (.copyYourself (E.getOriginalPath d) (E.getInstallPath d))
  | .call .createDestDir _ => some .createDestDir
  | .call .changeLibPathsOnFile args => some (.changeLibPathsOnFile (args.getD 0 []))
  | .call .fixRpathsOnFile args => some (.fixRpathsOnFile (args.getD 0 []) (args.getD 1 []))
  | _ => none

/-- The steps in a log, in order. -/
def steps {Dep : Type} (E : Env Dep) (log : List (Event Dep)) : List (Step Dep) :=
  log.filterMap (stepOf E)

/-- The steps of installing one record: copy, fix the references of the copy, replay
the search paths of the original on the copy. -/
def installSteps {Dep : Type} (E : Env Dep) (d : Dep) : List (Step Dep) :=
  [.copyYourself (E.getOriginalPath d) (E.getInstallPath d),
    .changeLibPathsOnFile (E.getInstallPath d),
    .fixRpathsOnFile (E.getOriginalPath d) (E.getInstallPath d)]

/-- The steps of fixing one of the configured files. -/
def fixSteps {Dep : Type} (file : Str) : List (Step Dep) :=
  [.changeLibPathsOnFile file, .fixRpathsOnFile file file]

/-- The steps claim C8 lists for a run that starts with the global list `entry`. -/
def orderedSteps {Dep : Type} (E : Env Dep) (entry : List Dep) : List (Step Dep) :=
  entry.map .summary
    ++ (if E.bundleLibs then .createDestDir :: entry.flatMap (installSteps E) else [])
    ++ E.filesToFix.flatMap fixSteps

/-- Modelled from the spec: the Dependency Record of the data model (`Dependency.h` is
not part of the sources), with the reference string as it appeared, the directory
portion and the base name. -/
structure Dependency where
  originalPath : Str
  dirPrefix : Str
  filename : Str
  deriving DecidableEq

/-- Modelled from the spec: the record built from a reference string; the directory
portion ends with the last slash and is empty for a bare name. -/
def Dependency.ofPath (path : Str) : Dependency :=
  { originalPath := path
    dirPrefix := path.take (size_add (rfind path "/".toList) 1)
    filename := path.drop (size_add (rfind path "/".toList) 1) }

/-- Modelled from the spec: two records are the same dependency when their file names
match, and the merge gives the record already present the more specific (non-empty)
directory portion. -/
def Dependency.mergeIfSameAs (this dep2 : Dependency) : Bool × Dependency :=
  if this.filename = dep2.filename then
    (true, if dep2.dirPrefix = [] then { dep2 with dirPrefix := this.dirPrefix } else dep2)
  else (false, dep2)

/-- Modelled from the spec: the inspector's output as an ordered list of raw lines
(`tokenize` of `Utils.h` is not part of the sources): the maximal runs of characters
other than the newline, `cur` being the run read so far. -/
def tokenizeLines : Str → Str → List Str
  | [], cur => if cur = [] then [] else [cur]
  | c :: t, cur =>
    if c = newline then
      if cur = [] then tokenizeLines t [] else cur :: tokenizeLines t []
    else tokenizeLines t (cur ++ [c])

/-- Modelled from the spec: a configuration and collaborators for the examples.  The
policy excludes the system directories `/usr/lib/` and `/System/Library/`; the output
directory is `./libs/`; `inspect` is the inspector and `patch` the shell; every path
exists and resolves to itself. -/
def specEnv (inspect : Str → Str) (patch : Str → Int) : Env Dependency :=
  { mkDependency := Dependency.ofPath
    mergeIfSameAs := Dependency.mergeIfSameAs
    getPrefix := fun d => d.dirPrefix
    getOriginalPath := fun d => d.originalPath
    getInstallPath := fun d => "./libs/".toList ++ d.filename
    copyYourself := fun _ => true
    fixFileThatDependsOnMe := fun _ _ => true
    isPrefixBundled := fun p =>
      !("/usr/lib/".toList.isPrefixOf p || "/System/Library/".toList.isPrefixOf p)
    inside_lib_path := "@executable_path/../libs/".toList
    destFolder := "./libs/".toList
    canOverwriteDir := false
    canCreateDir := false
    bundleLibs := true
    filesToFix := ["app".toList]
    fileExists := fun _ => true
    system_get_output := inspect
    systemp := patch
    tokenize := fun out => tokenizeLines out []
    realpath := fun p => some p
    getUserInputDirForFile := fun _ => "/opt/lib/".toList }

/-- An inspector that reports one load command, for `/opt/local/lib/libfoo.dylib`. -/
def otoolFoo : Str → Str := fun _ =>
  ("Load command 12\n          cmd LC_LOAD_DYLIB\n      cmdsize 56\n"
    ++ "         name /opt/local/lib/libfoo.dylib (offset 24)\n").toList

/-- A registry in which two search paths are recorded for the library at its original
place and another one for its copy. -/
def stateWithRpaths : State Dependency :=
  { (State.empty : State Dependency) with
    deps := [Dependency.ofPath "/opt/local/lib/libfoo.dylib".toList]
    rpaths := ["/opt/local/lib".toList, "@loader_path/../lib".toList]
    rpaths_per_file :=
      mapSet (mapSet (fun _ => none) "./libs/libfoo.dylib".toList ["/elsewhere".toList])
        "/opt/local/lib/libfoo.dylib".toList
        ["@loader_path/../lib".toList, "/opt/local/lib".toList] }

/-- An inspector whose first load command has no name line. -/
def otoolNameless : Str → Str := fun _ =>
  ("Load command 9\n          cmd LC_LOAD_DYLIB\n      cmdsize 56\nLoad command 10\n"
    ++ "          cmd LC_LOAD_DYLIB\n      cmdsize 56\n"
    ++ "         name /opt/local/lib/libfoo.dylib (offset 24)\n").toList

/-- An inspector that reports a load command and no search path. -/
def otoolNoRpath : Str → Str := otoolFoo

/-- An inspector whose name line holds `.framework` before `name `. -/
def otoolFrameworkFirst : Str → Str := fun _ =>
  ("Load command 12\n          cmd LC_LOAD_DYLIB\n      cmdsize 56\n"
    ++ "  .framework name /opt/local/lib/libz.dylib (offset 24)\n").toList

end DylibBundler

namespace DylibBundler

/-! ### The merge loops -/

theorem mergeLoop_length {Dep : Type} (E : Env Dep) (dep : Dep) (l : List Dep) :
    (mergeLoop E dep l).2.length = l.length := by
  induction l with
  | nil => rfl
  | cons d ds ih => simp [mergeLoop, ih]

theorem mergeLoop_found {Dep : Type} (E : Env Dep) (dep : Dep) (l : List Dep) :
    (mergeLoop E dep l).1 = true ↔ ∃ d ∈ l, same E dep d = true := by
  induction l with
  | nil => simp [mergeLoop]
  | cons d ds ih => simp [mergeLoop, ih, same]

theorem mergeLoop_not_found {Dep : Type} (E : Env Dep) (dep : Dep) (l : List Dep) :
    (mergeLoop E dep l).1 = false ↔ ∀ d ∈ l, same E dep d = false := by
  induction l with
  | nil => simp [mergeLoop]
  | cons d ds ih => simp [mergeLoop, ih, same]

theorem mergeLoop_keys {Dep κ : Type} (E : Env Dep) (key : Dep → κ)
    (hkey : ∀ a b, key (E.mergeIfSameAs a b).2 = key b) (dep : Dep) (l : List Dep) :
    (mergeLoop E dep l).2.map key = l.map key := by
  induction l with
  | nil => rfl
  | cons d ds ih => simp [mergeLoop, ih, hkey]

/-! ### One call of `addDependency` -/

theorem addDependency_perFile_other {Dep : Type} (E : Env Dep) (path filename B : Str)
    (s : State Dep) (hB : B ≠ filename) :
    (addDependency E path filename s).perFile B = s.perFile B := by
  unfold addDependency State.perFile
  by_cases h1 : E.isPrefixBundled (E.getPrefix (E.mkDependency path)) = false
  · simp [h1, mapSet, hB]
  · by_cases h2 : (mergeLoop E (E.mkDependency path) s.deps).1 = false <;>
    by_cases h3 : (mergeLoop E (E.mkDependency path) ((s.deps_per_file filename).getD [])).1
      = false <;> simp [h1, h2, h3, mapSet, hB]

theorem addDependency_perFile_self {Dep : Type} (E : Env Dep) (path filename : Str)
    (s : State Dep) :
    (addDependency E path filename s).perFile filename =
      if passes E path = true ∧ (mergeLoop E (E.mkDependency path) (s.perFile filename)).1 = false
      then s.perFile filename ++ [E.mkDependency path] else s.perFile filename := by
  unfold addDependency State.perFile passes
  by_cases h1 : E.isPrefixBundled (E.getPrefix (E.mkDependency path)) = false
  · simp [h1, mapSet]
  · by_cases h2 : (mergeLoop E (E.mkDependency path) s.deps).1 = false <;>
    by_cases h3 : (mergeLoop E (E.mkDependency path) ((s.deps_per_file filename).getD [])).1
      = false <;> simp [h1, h2, h3, mapSet]

theorem addDependency_deps {Dep : Type} (E : Env Dep) (path filename : Str) (s : State Dep) :
    (addDependency E path filename s).deps =
      if passes E path = true ∧ (mergeLoop E (E.mkDependency path) s.deps).1 = false
      then (mergeLoop E (E.mkDependency path) s.deps).2 ++ [E.mkDependency path]
      else (mergeLoop E (E.mkDependency path) s.deps).2 := by
  unfold addDependency passes
  by_cases h1 : E.isPrefixBundled (E.getPrefix (E.mkDependency path)) = false
  · simp [h1]
  · by_cases h2 : (mergeLoop E (E.mkDependency path) s.deps).1 = false <;>
    by_cases h3 : (mergeLoop E (E.mkDependency path) ((s.deps_per_file filename).getD [])).1
      = false <;> simp [h1, h2, h3]

/-- Claim C1: when the bundle-inclusion policy rejects the directory portion of the
candidate built from the reference, `addDependency` appends nothing: the global list
keeps its length and the list of every binary is the list it was, whatever the lists
held before. -/
theorem addDependency_rejected_appends_nothing {Dep : Type} (E : Env Dep)
    (path filename : Str) (s : State Dep)
    (hrej : E.isPrefixBundled (E.getPrefix (E.mkDependency path)) = false) :
    (addDependency E path filename s).deps.length = s.deps.length
      ∧ ∀ B, (addDependency E path filename s).perFile B = s.perFile B := by
  have hp : passes E path = false := hrej
  refine ⟨?_, fun B => ?_⟩
  · rw [addDependency_deps]
    simp [hp, mergeLoop_length]
  · by_cases hB : B = filename
    · subst hB
      rw [addDependency_perFile_self]
      simp [hp]
    · exact addDependency_perFile_other E path filename B s hB

/-- Witness of C1: `libfoo.dylib` is first added from `/opt/local/lib/`, which passes the
policy, and then referenced from the excluded `/usr/lib/`. -/
theorem addDependency_rejected_appends_nothing_witness :
    (addDependency (specEnv otoolFoo (fun _ => 0)) "/usr/lib/libfoo.dylib".toList "app".toList
        (addDependency (specEnv otoolFoo (fun _ => 0)) "/opt/local/lib/libfoo.dylib".toList
          "app".toList State.empty)).deps.length
      = (addDependency (specEnv otoolFoo (fun _ => 0)) "/opt/local/lib/libfoo.dylib".toList
          "app".toList State.empty).deps.length
    ∧ ∀ B, (addDependency (specEnv otoolFoo (fun _ => 0)) "/usr/lib/libfoo.dylib".toList
        "app".toList
        (addDependency (specEnv otoolFoo (fun _ => 0)) "/opt/local/lib/libfoo.dylib".toList
          "app".toList State.empty)).perFile B
      = (addDependency (specEnv otoolFoo (fun _ => 0)) "/opt/local/lib/libfoo.dylib".toList
          "app".toList State.empty).perFile B :=
  addDependency_rejected_appends_nothing (specEnv otoolFoo (fun _ => 0))
    "/usr/lib/libfoo.dylib".toList "app".toList _ (by decide)

/-! ### Sequences of calls of `addDependency` -/

theorem mergeLoop_not_found_iff_key {Dep κ : Type} (E : Env Dep) (key : Dep → κ)
    (hE : LawfulMerge E key) (dep : Dep) (l : List Dep) :
    (mergeLoop E dep l).1 = false ↔ key dep ∉ l.map key := by
  rw [mergeLoop_not_found]
  constructor
  · intro h hmem
    obtain ⟨d, hd, hk⟩ := List.mem_map.1 hmem
    have := h d hd
    rw [same, Bool.eq_false_iff] at this
    exact this ((hE.same_iff dep d).2 hk.symm)
  · intro h d hd
    rw [same, Bool.eq_false_iff]
    intro hs
    exact h (List.mem_map.2 ⟨d, hd, ((hE.same_iff dep d).1 hs).symm⟩)

theorem addDependency_deps_keys {Dep κ : Type} [DecidableEq κ] (E : Env Dep) (key : Dep → κ)
    (hE : LawfulMerge E key) (path filename : Str) (s : State Dep) :
    (addDependency E path filename s).deps.map key =
      if passes E path = true ∧ key (E.mkDependency path) ∉ s.deps.map key
      then s.deps.map key ++ [key (E.mkDependency path)] else s.deps.map key := by
  rw [addDependency_deps]
  simp only [mergeLoop_not_found_iff_key E key hE]
  split <;> simp [mergeLoop_keys E key hE.key_merged]

theorem addDependency_perFile_step {Dep κ : Type} [DecidableEq κ] (E : Env Dep) (key : Dep → κ)
    (hE : LawfulMerge E key) (path filename B : Str) (s : State Dep) :
    (addDependency E path filename s).perFile B =
      if filename = B ∧ passes E path = true
          ∧ key (E.mkDependency path) ∉ (s.perFile B).map key
      then s.perFile B ++ [E.mkDependency path] else s.perFile B := by
  by_cases hB : B = filename
  · subst hB
    rw [addDependency_perFile_self]
    simp only [mergeLoop_not_found_iff_key E key hE, true_and]
  · rw [addDependency_perFile_other E path filename B s hB]
    have : ¬ filename = B := fun h => hB h.symm
    simp [this]

theorem nodup_keys_step {κ : Type} [DecidableEq κ] (l : List κ) (k : κ) (c : Prop) [Decidable c]
    (h : l.Nodup) : (if c ∧ k ∉ l then l ++ [k] else l).Nodup := by
  split
  · rename_i hc
    rw [List.nodup_append]
    refine ⟨h, List.nodup_singleton k, ?_⟩
    intro a ha hb
    rw [List.mem_singleton] at hb
    subst hb
    exact hc.2 ha
  · exact h

theorem addAll_cons {Dep : Type} (E : Env Dep) (c : Str × Str) (calls : List (Str × Str))
    (s : State Dep) : addAll E (c :: calls) s = addAll E calls (addDependency E c.1 c.2 s) :=
  rfl

theorem addAll_deps_nodup {Dep κ : Type} [DecidableEq κ] (E : Env Dep) (key : Dep → κ)
    (hE : LawfulMerge E key) (calls : List (Str × Str)) :
    ∀ s : State Dep, (s.deps.map key).Nodup → ((addAll E calls s).deps.map key).Nodup := by
  induction calls with
  | nil => intro s h; exact h
  | cons c calls ih =>
    intro s h
    rw [addAll_cons]
    apply ih
    rw [addDependency_deps_keys E key hE]
    exact nodup_keys_step _ _ _ h

theorem addAll_deps_keys_mono {Dep κ : Type} [DecidableEq κ] (E : Env Dep) (key : Dep → κ)
    (hE : LawfulMerge E key) (calls : List (Str × Str)) :
    ∀ (s : State Dep) (k : κ), k ∈ s.deps.map key → k ∈ (addAll E calls s).deps.map key := by
  induction calls with
  | nil => intro s k h; exact h
  | cons c calls ih =>
    intro s k h
    rw [addAll_cons]
    apply ih
    rw [addDependency_deps_keys E key hE]
    split
    · exact List.mem_append_left _ h
    · exact h

theorem addAll_deps_keys_added {Dep κ : Type} [DecidableEq κ] (E : Env Dep) (key : Dep → κ)
    (hE : LawfulMerge E key) (calls : List (Str × Str)) :
    ∀ (s : State Dep) (c : Str × Str), c ∈ calls → passes E c.1 = true →
      key (E.mkDependency c.1) ∈ (addAll E calls s).deps.map key := by
  induction calls with
  | nil => intro s c hc; simp at hc
  | cons c0 calls ih =>
    intro s c hc hp
    rw [addAll_cons]
    rcases List.mem_cons.1 hc with h | h
    · subst h
      apply addAll_deps_keys_mono E key hE
      rw [addDependency_deps_keys E key hE]
      by_cases hm : key (E.mkDependency c.1) ∈ s.deps.map key
      · simp [hm]
      · simp [hm, hp]
    · exact ih _ c h hp

theorem addAll_deps_keys_origin {Dep κ : Type} [DecidableEq κ] (E : Env Dep) (key : Dep → κ)
    (hE : LawfulMerge E key) (calls : List (Str × Str)) :
    ∀ (s : State Dep) (k : κ), k ∈ (addAll E calls s).deps.map key →
      k ∈ s.deps.map key ∨ ∃ c ∈ calls, passes E c.1 = true ∧ k = key (E.mkDependency c.1) := by
  induction calls with
  | nil => intro s k h; exact Or.inl h
  | cons c0 calls ih =>
    intro s k h
    rw [addAll_cons] at h
    rcases ih _ k h with h1 | ⟨c, hc, hp, hk⟩
    · rw [addDependency_deps_keys E key hE] at h1
      split at h1
      · rename_i hcond
        rcases List.mem_append.1 h1 with h2 | h2
        · exact Or.inl h2
        · rw [List.mem_singleton] at h2
          exact Or.inr ⟨c0, List.mem_cons_self _ _, hcond.1, h2⟩
      · exact Or.inl h1
    · exact Or.inr ⟨c, List.mem_cons_of_mem _ hc, hp, hk⟩

theorem not_same_of_nodup_keys {Dep κ : Type} (E : Env Dep) (key : Dep → κ)
    (hE : LawfulMerge E key) (l : List Dep) (h : (l.map key).Nodup) (i j : Nat) (a b : Dep)
    (hi : l[i]? = some a) (hj : l[j]? = some b) (hij : i ≠ j) : same E a b = false := by
  rw [same, Bool.eq_false_iff]
  intro hs
  have hk : key a = key b := (hE.same_iff a b).1 hs
  have h1 : (l.map key)[i]? = some (key a) := by simp [hi]
  have h2 : (l.map key)[j]? = some (key b) := by simp [hj]
  have hlen : ∀ (n : Nat) (x : κ), (l.map key)[n]? = some x → n < (l.map key).length := by
    intro n x hn
    by_contra hcon
    rw [List.getElem?_eq_none (by omega)] at hn
    exact Option.noConfusion hn
  rcases Nat.lt_or_gt_of_ne hij with hlt | hlt
  · exact List.nodup_iff_getElem?_ne_getElem?.1 h i j hlt (hlen j _ h2) (by rw [h1, h2, hk])
  · exact List.nodup_iff_getElem?_ne_getElem?.1 h j i hlt (hlen i _ h1) (by rw [h1, h2, hk])

theorem length_eq_one_of_nodup_const {κ : Type} (l : List κ) (k : κ) (h : l.Nodup)
    (hne : k ∈ l) (hall : ∀ x ∈ l, x = k) : l.length = 1 := by
  match l, h, hne, hall with
  | [], _, hne, _ => simp at hne
  | [_], _, _, _ => rfl
  | a :: b :: t, h, _, hall =>
    exfalso
    have ha : a = k := hall a (by simp)
    have hb : b = k := hall b (by simp)
    rw [ha, hb] at h
    simp at h

/-- Claim C2: from the empty registry, after any sequence of `addDependency` calls no two
records at different positions of the global list are the same dependency; and when the
calls are at least one, all pass the policy and all build the same dependency, the
global list holds exactly one record. -/
theorem global_list_without_same_records {Dep κ : Type} (E : Env Dep) (key : Dep → κ)
    (hE : LawfulMerge E key) (calls : List (Str × Str)) :
    (∀ (i j : Nat) (a b : Dep), (addAll E calls State.empty).deps[i]? = some a →
        (addAll E calls State.empty).deps[j]? = some b → i ≠ j → same E a b = false)
      ∧ (calls ≠ [] → (∀ c ∈ calls, passes E c.1 = true) →
          (∀ c ∈ calls, ∀ c1 ∈ calls,
            same E (E.mkDependency c.1) (E.mkDependency c1.1) = true) →
          (addAll E calls State.empty).deps.length = 1) := by
  classical
  have hnd : ((addAll E calls State.empty).deps.map key).Nodup :=
    addAll_deps_nodup E key hE calls State.empty (by simp [State.empty])
  refine ⟨fun i j a b hi hj hij => not_same_of_nodup_keys E key hE _ hnd i j a b hi hj hij, ?_⟩
  intro hne hpass hsame
  obtain ⟨c0, hc0⟩ := List.exists_mem_of_ne_nil calls hne
  have hlen := length_eq_one_of_nodup_const _ (key (E.mkDependency c0.1)) hnd
    (addAll_deps_keys_added E key hE calls State.empty c0 hc0 (hpass c0 hc0)) (by
      intro x hx
      rcases addAll_deps_keys_origin E key hE calls State.empty x hx with h | ⟨c, hc, _, hk⟩
      · simp [State.empty] at h
      · rw [hk]
        exact (hE.same_iff _ _).1 (hsame c hc c0 hc0))
  simpa using hlen

/-- The model of the record from the spec satisfies what is assumed of the merge. -/
theorem specEnv_lawful (inspect : Str → Str) (patch : Str → Int) :
    LawfulMerge (specEnv inspect patch) (fun d : Dependency => d.filename) := by
  constructor
  · intro a b
    show (Dependency.mergeIfSameAs a b).1 = true ↔ a.filename = b.filename
    unfold Dependency.mergeIfSameAs
    split <;> simp_all
  · intro a b
    show (Dependency.mergeIfSameAs a b).2.filename = b.filename
    unfold Dependency.mergeIfSameAs
    split
    · split <;> rfl
    · rfl

/-- Witness of C2: `libfoo.dylib` referenced with its directory, bare, and with its
directory again, by two binaries. -/
theorem global_list_without_same_records_witness :
    (∀ (i j : Nat) (a b : Dependency),
        (addAll (specEnv otoolFoo (fun _ => 0))
          [("/opt/local/lib/libfoo.dylib".toList, "app".toList),
            ("libfoo.dylib".toList, "app".toList),
            ("/opt/local/lib/libfoo.dylib".toList, "tool".toList)] State.empty).deps[i]?
          = some a →
        (addAll (specEnv otoolFoo (fun _ => 0))
          [("/opt/local/lib/libfoo.dylib".toList, "app".toList),
            ("libfoo.dylib".toList, "app".toList),
            ("/opt/local/lib/libfoo.dylib".toList, "tool".toList)] State.empty).deps[j]?
          = some b →
        i ≠ j → same (specEnv otoolFoo (fun _ => 0)) a b = false)
      ∧ (addAll (specEnv otoolFoo (fun _ => 0))
          [("/opt/local/lib/libfoo.dylib".toList, "app".toList),
            ("libfoo.dylib".toList, "app".toList),
            ("/opt/local/lib/libfoo.dylib".toList, "tool".toList)] State.empty).deps.length
          = 1 :=
  ⟨(global_list_without_same_records (specEnv otoolFoo (fun _ => 0))
      (fun d : Dependency => d.filename) (specEnv_lawful _ _) _).1,
    (global_list_without_same_records (specEnv otoolFoo (fun _ => 0))
      (fun d : Dependency => d.filename) (specEnv_lawful _ _) _).2
      (by decide) (by decide) (by decide)⟩

/-! ### The list of one binary -/

theorem addAll_perFile_nodup {Dep κ : Type} [DecidableEq κ] (E : Env Dep) (key : Dep → κ)
    (hE : LawfulMerge E key) (B : Str) (calls : List (Str × Str)) :
    ∀ s : State Dep, ((s.perFile B).map key).Nodup →
      (((addAll E calls s).perFile B).map key).Nodup := by
  induction calls with
  | nil => intro s h; exact h
  | cons c calls ih =>
    intro s h
    rw [addAll_cons]
    apply ih
    rw [addDependency_perFile_step E key hE]
    split
    · rename_i hc
      rw [List.map_append, List.nodup_append]
      refine ⟨h, List.nodup_singleton _, ?_⟩
      intro a ha hb
      rw [List.map_singleton, List.mem_singleton] at hb
      subst hb
      exact hc.2.2 ha
    · exact h

theorem addAll_perFile_mono {Dep κ : Type} [DecidableEq κ] (E : Env Dep) (key : Dep → κ)
    (hE : LawfulMerge E key) (B : Str) (calls : List (Str × Str)) :
    ∀ (s : State Dep) (r : Dep), r ∈ s.perFile B → r ∈ (addAll E calls s).perFile B := by
  induction calls with
  | nil => intro s r h; exact h
  | cons c calls ih =>
    intro s r h
    rw [addAll_cons]
    apply ih
    rw [addDependency_perFile_step E key hE]
    split
    · exact List.mem_append_left _ h
    · exact h

theorem addAll_perFile_added {Dep κ : Type} [DecidableEq κ] (E : Env Dep) (key : Dep → κ)
    (hE : LawfulMerge E key) (B : Str) (calls : List (Str × Str)) :
    ∀ (s : State Dep) (c : Str × Str), c ∈ calls → c.2 = B → passes E c.1 = true →
      ∃ r ∈ (addAll E calls s).perFile B, key r = key (E.mkDependency c.1) := by
  induction calls with
  | nil => intro s c hc; simp at hc
  | cons c0 calls ih =>
    intro s c hc hB hp
    rw [addAll_cons]
    rcases List.mem_cons.1 hc with h | h
    · subst h
      have hstep := addDependency_perFile_step E key hE c.1 c.2 B s
      by_cases hm : key (E.mkDependency c.1) ∈ (s.perFile B).map key
      · obtain ⟨r, hr, hk⟩ := List.mem_map.1 hm
        exact ⟨r, addAll_perFile_mono E key hE B calls _ r (by
          rw [hstep]; simp [hm]; exact hr), hk⟩
      · refine ⟨E.mkDependency c.1, addAll_perFile_mono E key hE B calls _ _ ?_, rfl⟩
        rw [hstep]
        simp [hm, hp, hB]
    · exact ih _ c h hB hp

theorem addAll_perFile_origin {Dep κ : Type} [DecidableEq κ] (E : Env Dep) (key : Dep → κ)
    (hE : LawfulMerge E key) (B : Str) (calls : List (Str × Str)) :
    ∀ (s : State Dep) (r : Dep), r ∈ (addAll E calls s).perFile B →
      r ∈ s.perFile B
        ∨ ∃ c ∈ calls, c.2 = B ∧ passes E c.1 = true ∧ r = E.mkDependency c.1 := by
  induction calls with
  | nil => intro s r h; exact Or.inl h
  | cons c0 calls ih =>
    intro s r h
    rw [addAll_cons] at h
    rcases ih _ r h with h1 | ⟨c, hc, hB, hp, hr⟩
    · rw [addDependency_perFile_step E key hE] at h1
      split at h1
      · rename_i hcond
        rcases List.mem_append.1 h1 with h2 | h2
        · exact Or.inl h2
        · rw [List.mem_singleton] at h2
          exact Or.inr ⟨c0, List.mem_cons_self _ _, hcond.1, hcond.2.1, h2⟩
      · exact Or.inl h1
    · exact Or.inr ⟨c, List.mem_cons_of_mem _ hc, hB, hp, hr⟩

/-- Claim C3: from the empty registry, after any sequence of `addDependency` calls the
list of a binary `B` holds no two records that are the same dependency, holds at exactly
one position a record that is the same dependency for every call with owner `B` that
passed the policy, and holds only records built by such calls.  The global list plays no part: in any state,
a passing reference of `B` that is the same dependency as no record of the list of `B`
is appended to that list, and one that is the same as a record of it is not. -/
theorem per_binary_list_one_record_each {Dep κ : Type} (E : Env Dep) (key : Dep → κ)
    (hE : LawfulMerge E key) (calls : List (Str × Str)) (B : Str) :
    (∀ (i j : Nat) (a b : Dep), ((addAll E calls State.empty).perFile B)[i]? = some a →
        ((addAll E calls State.empty).perFile B)[j]? = some b → i ≠ j → same E a b = false)
      ∧ (∀ c ∈ calls, c.2 = B → passes E c.1 = true →
          ∃ (i : Nat) (r : Dep), ((addAll E calls State.empty).perFile B)[i]? = some r
            ∧ same E r (E.mkDependency c.1) = true
            ∧ ∀ (j : Nat) (r1 : Dep), ((addAll E calls State.empty).perFile B)[j]? = some r1 →
                same E r1 (E.mkDependency c.1) = true → j = i)
      ∧ (∀ r ∈ (addAll E calls State.empty).perFile B,
          ∃ c ∈ calls, c.2 = B ∧ passes E c.1 = true ∧ r = E.mkDependency c.1)
      ∧ (∀ (s : State Dep) (path : Str), passes E path = true →
          (∀ r ∈ s.perFile B, same E (E.mkDependency path) r = false) →
          (addDependency E path B s).perFile B = s.perFile B ++ [E.mkDependency path])
      ∧ (∀ (s : State Dep) (path : Str),
          (∃ r ∈ s.perFile B, same E (E.mkDependency path) r = true) →
          (addDependency E path B s).perFile B = s.perFile B) := by
  classical
  refine ⟨?_, ?_, ?_, ?_, ?_⟩
  · intro i j a b hi hj hij
    exact not_same_of_nodup_keys E key hE _
      (addAll_perFile_nodup E key hE B calls State.empty (by simp [State.empty, State.perFile]))
      i j a b hi hj hij
  · intro c hc hB hp
    obtain ⟨r, hr, hk⟩ := addAll_perFile_added E key hE B calls State.empty c hc hB hp
    obtain ⟨i, hi⟩ := List.getElem?_of_mem hr
    refine ⟨i, r, hi, (hE.same_iff _ _).2 hk, ?_⟩
    intro j r1 hj hs1
    by_contra hji
    have hno := not_same_of_nodup_keys E key hE _
      (addAll_perFile_nodup E key hE B calls State.empty (by simp [State.empty, State.perFile]))
      j i r1 r hj hi hji
    have hkk : key r1 = key r := ((hE.same_iff _ _).1 hs1).trans hk.symm
    rw [same, (hE.same_iff r1 r).2 hkk] at hno
    cases hno
  · intro r hr
    rcases addAll_perFile_origin E key hE B calls State.empty r hr with h | h
    · simp [State.empty, State.perFile] at h
    · exact h
  · intro s path hp hnone
    rw [addDependency_perFile_self]
    have : (mergeLoop E (E.mkDependency path) (s.perFile B)).1 = false :=
      (mergeLoop_not_found E _ _).2 hnone
    simp [hp, this]
  · intro s path hsome
    rw [addDependency_perFile_self]
    have : (mergeLoop E (E.mkDependency path) (s.perFile B)).1 = true :=
      (mergeLoop_found E _ _).2 hsome
    simp [this]

/-- Witness of C3: `app` adds `libfoo.dylib`, then `tool` references it for the first
time and a second time. -/
theorem per_binary_list_one_record_each_witness :
    (addAll (specEnv otoolFoo (fun _ => 0))
        [("/opt/local/lib/libfoo.dylib".toList, "app".toList),
          ("/opt/local/lib/libfoo.dylib".toList, "tool".toList),
          ("libfoo.dylib".toList, "tool".toList)] State.empty).perFile "tool".toList
      = [Dependency.ofPath "/opt/local/lib/libfoo.dylib".toList]
    ∧ ∀ r ∈ (addAll (specEnv otoolFoo (fun _ => 0))
        [("/opt/local/lib/libfoo.dylib".toList, "app".toList),
          ("/opt/local/lib/libfoo.dylib".toList, "tool".toList),
          ("libfoo.dylib".toList, "tool".toList)] State.empty).perFile "tool".toList,
        ∃ c ∈ [("/opt/local/lib/libfoo.dylib".toList, "app".toList),
          ("/opt/local/lib/libfoo.dylib".toList, "tool".toList),
          ("libfoo.dylib".toList, "tool".toList)],
          c.2 = "tool".toList ∧ passes (specEnv otoolFoo (fun _ => 0)) c.1 = true
            ∧ r = (specEnv otoolFoo (fun _ => 0)).mkDependency c.1 :=
  ⟨by decide,
    (per_binary_list_one_record_each (specEnv otoolFoo (fun _ => 0))
      (fun d : Dependency => d.filename) (specEnv_lawful _ _) _ "tool".toList).2.2.1⟩

/-! ### The output directory -/

/-- Claim C6 as stated fails: with the output directory present and neither overwriting
nor creation allowed, `createDestDir` does not end the process. -/
theorem createDestDir_existing_dir_counterexample :
    (specEnv otoolFoo (fun _ => 0)).fileExists (specEnv otoolFoo (fun _ => 0)).destFolder = true
      ∧ (specEnv otoolFoo (fun _ => 0)).canOverwriteDir = false
      ∧ (specEnv otoolFoo (fun _ => 0)).canCreateDir = false
      ∧ ¬ ∃ s1, createDestDir (specEnv otoolFoo (fun _ => 0)) State.empty = Outcome.exit 1 s1 := by
  refine ⟨rfl, rfl, rfl, ?_⟩
  rintro ⟨s1, h⟩
  simp [createDestDir, specEnv] at h

theorem getLast?_emit {Dep : Type} (s : State Dep) (e : Event Dep) :
    (s.emit e).log.getLast? = some e := by
  simp [State.emit]

/-- Claim C6, amended: when the output directory exists and overwriting it is not
allowed, with automatic creation allowed or not, `createDestDir` returns to its caller
without error; it only prints the line on the directory it checks and runs no shell
command, and the registry is the one it was.  It ends the process with the message that
the directory does not exist exactly when automatic creation is not allowed and the
directory does not exist or has just been erased by a successful `rm -r`. -/
theorem createDestDir_existing_dir_returns {Dep : Type} (E : Env Dep) (s : State Dep) :
    (E.fileExists E.destFolder = true → E.canOverwriteDir = false →
        createDestDir E s = Outcome.done
            { s with log := s.log ++ [Event.call Fn.createDestDir [],
                Event.cout ("* Checking output directory ".toList ++ E.destFolder
                  ++ [newline])] }
          ∧ shellCommands (createDestDir E s).state.log = shellCommands s.log)
      ∧ ((∃ s1, createDestDir E s = Outcome.exit 1 s1
            ∧ s1.log.getLast? = some (Event.cerr
              ("\n\nError : Dest folder does not exist. Create it or pass "
                ++ "the appropriate flag for automatic dest dir creation.\n").toList))
          ↔ (E.canCreateDir = false
              ∧ (E.fileExists E.destFolder = false
                ∨ (E.canOverwriteDir = true
                  ∧ E.systemp ("rm -r \"".toList ++ E.destFolder ++ "\"".toList) = 0)))) := by
  refine ⟨?_, ?_⟩
  · intro hex hov
    have h : createDestDir E s = Outcome.done
        { s with log := s.log ++ [Event.call Fn.createDestDir [],
            Event.cout ("* Checking output directory ".toList ++ E.destFolder
              ++ [newline])] } := by
      simp [createDestDir, hex, hov, State.emit]
    refine ⟨h, ?_⟩
    rw [h]
    simp [Outcome.state, shellCommands]
  · unfold createDestDir
    simp only []
    by_cases hex : E.fileExists E.destFolder = true
    · by_cases hov : E.canOverwriteDir = true
      · by_cases hrm : E.systemp ("rm -r \"".toList ++ E.destFolder ++ "\"".toList) = 0
        · by_cases hcr : E.canCreateDir = true
          · by_cases hmk : E.systemp ("mkdir -p \"".toList ++ E.destFolder ++ "\"".toList) = 0
            · simp only [hex, hov, hrm, hcr, hmk, Bool.and_self, ne_eq, not_true_eq_false,
                if_true, if_false]
              refine ⟨?_, ?_⟩
              · rintro ⟨s1, h1, _⟩
                cases h1
              · rintro ⟨h, _⟩
                cases h
            · simp only [hex, hov, hrm, hcr, hmk, Bool.and_self, ne_eq, not_true_eq_false,
                not_false_eq_true, if_true, if_false, Bool.true_eq_false, false_and, iff_false,
                not_exists, not_and]
              intro s1 h1
              cases h1
              rw [getLast?_emit]
              intro hcon
              have := Event.cerr.inj (Option.some.inj hcon)
              revert this
              decide
          · have hcr1 : E.canCreateDir = false := by simpa using hcr
            simp only [hex, hov, hrm, hcr1, Bool.and_self, ne_eq, not_true_eq_false,
              if_true, if_false, Bool.false_eq_true, true_and, and_self, or_true, iff_true]
            exact ⟨_, rfl, getLast?_emit _ _⟩
        · simp only [hex, hov, hrm, Bool.and_self, ne_eq, not_false_eq_true, if_true,
            Bool.true_eq_false, and_false, or_false, iff_false, not_exists, not_and]
          intro s1 h1
          cases h1
          rw [getLast?_emit]
          intro hcon
          have := Event.cerr.inj (Option.some.inj hcon)
          revert this
          decide
      · have hov1 : E.canOverwriteDir = false := by simpa using hov
        simp [-String.toList, hex, hov1]
    · have hex1 : E.fileExists E.destFolder = false := by simpa using hex
      by_cases hcr : E.canCreateDir = true
      · by_cases hmk : E.systemp ("mkdir -p \"".toList ++ E.destFolder ++ "\"".toList) = 0
        · simp only [hex1, hcr, hmk, Bool.false_and, Bool.false_eq_true, ne_eq,
            not_true_eq_false, if_true, if_false]
          refine ⟨?_, ?_⟩
          · rintro ⟨s1, h1, _⟩
            cases h1
          · rintro ⟨h, _⟩
            cases h
        · simp only [hex1, hcr, hmk, Bool.false_and, Bool.false_eq_true, ne_eq,
            not_false_eq_true, if_true, if_false, Bool.true_eq_false, false_and, iff_false,
            not_exists, not_and]
          intro s1 h1
          cases h1
          rw [getLast?_emit]
          intro hcon
          have := Event.cerr.inj (Option.some.inj hcon)
          revert this
          decide
      · have hcr1 : E.canCreateDir = false := by simpa using hcr
        simp only [hex1, hcr1, Bool.false_and, Bool.false_eq_true, if_false, if_true,
          true_or, and_self, iff_true]
        exact ⟨_, rfl, getLast?_emit _ _⟩

/-- Witness of the amended C6. -/
theorem createDestDir_existing_dir_returns_witness :
    createDestDir (specEnv otoolFoo (fun _ => 0)) State.empty = Outcome.done
        { (State.empty : State Dependency) with
          log := State.empty.log ++ [Event.call Fn.createDestDir [],
            Event.cout ("* Checking output directory ".toList
              ++ (specEnv otoolFoo (fun _ => 0)).destFolder ++ [newline])] }
      ∧ shellCommands (createDestDir (specEnv otoolFoo (fun _ => 0)) State.empty).state.log
        = shellCommands (State.empty : State Dependency).log :=
  (createDestDir_existing_dir_returns (specEnv otoolFoo (fun _ => 0)) State.empty).1 rfl rfl

/-! ### Replaying the search paths -/

theorem shellCommands_append {Dep : Type} (l1 l2 : List (Event Dep)) :
    shellCommands (l1 ++ l2) = shellCommands l1 ++ shellCommands l2 := by
  simp [shellCommands, List.filterMap_append]

theorem shellCommands_map_systemp {Dep : Type} (g : Str → Str) (l : List Str) :
    shellCommands (l.map (fun r => (Event.systemp (g r) : Event Dep))) = l.map g := by
  induction l with
  | nil => rfl
  | cons a t ih =>
    rw [List.map_cons, List.map_cons, ← ih]
    rfl

theorem shellCommands_emit_systemp {Dep : Type} (s : State Dep) (cmd : Str) :
    shellCommands (s.emit (.systemp cmd)).log = shellCommands s.log ++ [cmd] := by
  rw [State.emit, shellCommands_append]
  rfl

theorem shellCommands_emit_cerr {Dep : Type} (s : State Dep) (t : Str) :
    shellCommands (s.emit (.cerr t)).log = shellCommands s.log := by
  rw [State.emit, shellCommands_append]
  simp [shellCommands]

theorem shellCommands_emit_call {Dep : Type} (s : State Dep) (fn : Fn) (args : List Str) :
    shellCommands (s.emit (.call fn args)).log = shellCommands s.log := by
  rw [State.emit, shellCommands_append]
  simp [shellCommands]

theorem fixRpathsLoop_registry {Dep : Type} (E : Env Dep) (file_to_fix : Str)
    (entries : List Str) :
    ∀ s : State Dep,
      (fixRpathsLoop E file_to_fix entries s).state.deps = s.deps
        ∧ (fixRpathsLoop E file_to_fix entries s).state.deps_per_file = s.deps_per_file
        ∧ (fixRpathsLoop E file_to_fix entries s).state.deps_collected = s.deps_collected
        ∧ (fixRpathsLoop E file_to_fix entries s).state.rpaths = s.rpaths
        ∧ (fixRpathsLoop E file_to_fix entries s).state.rpaths_per_file = s.rpaths_per_file := by
  induction entries with
  | nil => intro s; exact ⟨rfl, rfl, rfl, rfl, rfl⟩
  | cons r rest ih =>
    intro s
    rw [fixRpathsLoop]
    split
    · exact ⟨rfl, rfl, rfl, rfl, rfl⟩
    · exact ih (s.emit (.systemp _))

theorem fixRpathsLoop_all_ok {Dep : Type} (E : Env Dep) (file_to_fix : Str)
    (entries : List Str) :
    ∀ s : State Dep, (∀ r ∈ entries, E.systemp (rpathEdit E file_to_fix r) = 0) →
      fixRpathsLoop E file_to_fix entries s = Outcome.done
        { s with log := s.log ++ entries.map (fun r => Event.systemp (rpathEdit E file_to_fix r)) }
      := by
  induction entries with
  | nil =>
    intro s _
    rw [fixRpathsLoop, List.map_nil, List.append_nil]
  | cons r rest ih =>
    intro s hok
    have h0 : E.systemp (rpathEdit E file_to_fix r) = 0 := hok r (List.mem_cons_self _ _)
    rw [fixRpathsLoop, if_neg (by rw [h0]; exact fun h => h rfl),
      ih _ (fun x hx => hok x (List.mem_cons_of_mem _ hx))]
    rw [State.emit, List.map_cons, List.append_assoc]
    rfl

theorem fixRpathsLoop_first_failure {Dep : Type} (E : Env Dep) (file_to_fix : Str)
    (pre : List Str) (r : Str) (post : List Str) :
    ∀ s : State Dep, (∀ x ∈ pre, E.systemp (rpathEdit E file_to_fix x) = 0) →
      E.systemp (rpathEdit E file_to_fix r) ≠ 0 →
      ∃ s1, fixRpathsLoop E file_to_fix (pre ++ r :: post) s = Outcome.exit 1 s1
        ∧ shellCommands s1.log
          = shellCommands s.log ++ (pre ++ [r]).map (rpathEdit E file_to_fix) := by
  induction pre with
  | nil =>
    intro s _ hr
    refine ⟨_, by rw [List.nil_append, fixRpathsLoop, if_pos hr], ?_⟩
    rw [shellCommands_emit_cerr, shellCommands_emit_systemp]
    rfl
  | cons x pre ih =>
    intro s hpre hr
    have h0 : E.systemp (rpathEdit E file_to_fix x) = 0 := hpre x (List.mem_cons_self _ _)
    obtain ⟨s1, h1, h2⟩ := ih (s.emit (.systemp (rpathEdit E file_to_fix x)))
      (fun y hy => hpre y (List.mem_cons_of_mem _ hy)) hr
    refine ⟨s1, ?_, ?_⟩
    · rw [← h1, List.cons_append, fixRpathsLoop, if_neg (by rw [h0]; exact fun h => h rfl)]
    · rw [h2, shellCommands_emit_systemp, List.append_assoc]
      rfl

/-- Claim C5 as stated fails: two entries are recorded for the original file, the first
edit fails, and `fixRpathsOnFile` ends the process after that single edit. -/
theorem fixRpathsOnFile_failed_edit_counterexample :
    (stateWithRpaths.rpathsOf "/opt/local/lib/libfoo.dylib".toList).length = 2
      ∧ (shellCommands (fixRpathsOnFile (specEnv otoolFoo (fun _ => 1))
          "/opt/local/lib/libfoo.dylib".toList "./libs/libfoo.dylib".toList
          stateWithRpaths).state.log).length = 1
      ∧ ∃ s1, fixRpathsOnFile (specEnv otoolFoo (fun _ => 1))
          "/opt/local/lib/libfoo.dylib".toList "./libs/libfoo.dylib".toList stateWithRpaths
          = Outcome.exit 1 s1 := by
  refine ⟨by decide, by decide, _, rfl⟩

/-- Claim C5, amended: `fixRpathsOnFile` never changes the registry; it reads the entries
recorded under `original_file`, not those under `file_to_fix`; as long as every edit
succeeds it runs one edit per entry, in the recorded order, each replacing the entry by
`Settings::inside_lib_path()` in `file_to_fix`, and returns, running none when nothing is
recorded; the first edit that fails is the last one run and ends the process with
status 1. -/
theorem fixRpathsOnFile_replays_original {Dep : Type} (E : Env Dep)
    (original_file file_to_fix : Str) (s : State Dep) :
    ((fixRpathsOnFile E original_file file_to_fix s).state.deps = s.deps
        ∧ (fixRpathsOnFile E original_file file_to_fix s).state.deps_per_file = s.deps_per_file
        ∧ (fixRpathsOnFile E original_file file_to_fix s).state.deps_collected
          = s.deps_collected
        ∧ (fixRpathsOnFile E original_file file_to_fix s).state.rpaths = s.rpaths
        ∧ (fixRpathsOnFile E original_file file_to_fix s).state.rpaths_per_file
          = s.rpaths_per_file)
      ∧ ((∀ r ∈ s.rpathsOf original_file, E.systemp (rpathEdit E file_to_fix r) = 0) →
          ∃ s1, fixRpathsOnFile E original_file file_to_fix s = Outcome.done s1
            ∧ shellCommands s1.log = shellCommands s.log
              ++ (s.rpathsOf original_file).map (rpathEdit E file_to_fix)
            ∧ (s.rpaths_per_file original_file = none →
                shellCommands s1.log = shellCommands s.log))
      ∧ (∀ (pre : List Str) (r : Str) (post : List Str),
          s.rpathsOf original_file = pre ++ r :: post →
          (∀ x ∈ pre, E.systemp (rpathEdit E file_to_fix x) = 0) →
          E.systemp (rpathEdit E file_to_fix r) ≠ 0 →
          ∃ s1, fixRpathsOnFile E original_file file_to_fix s = Outcome.exit 1 s1
            ∧ shellCommands s1.log = shellCommands s.log
              ++ (pre ++ [r]).map (rpathEdit E file_to_fix)) := by
  have hentries : (match s.rpaths_per_file original_file with
      | some v => v
      | none => []) = s.rpathsOf original_file := by
    unfold State.rpathsOf
    cases s.rpaths_per_file original_file <;> rfl
  have hdef : fixRpathsOnFile E original_file file_to_fix s
      = fixRpathsLoop E file_to_fix (s.rpathsOf original_file)
          (s.emit (.call .fixRpathsOnFile [original_file, file_to_fix])) := by
    unfold fixRpathsOnFile
    rw [hentries]
  refine ⟨?_, ?_, ?_⟩
  · rw [hdef]
    exact fixRpathsLoop_registry E file_to_fix (s.rpathsOf original_file)
      (s.emit (.call .fixRpathsOnFile [original_file, file_to_fix]))
  · intro hok
    rw [hdef, fixRpathsLoop_all_ok E file_to_fix _ _ hok]
    refine ⟨_, rfl, ?_, ?_⟩
    · show shellCommands ((s.emit _).log ++ _) = _
      rw [shellCommands_append, shellCommands_emit_call, shellCommands_map_systemp]
    · intro hnone
      have hnil : s.rpathsOf original_file = [] := by rw [State.rpathsOf, hnone]; rfl
      show shellCommands ((s.emit _).log ++ _) = _
      rw [shellCommands_append, shellCommands_emit_call, hnil]
      exact List.append_nil _
  · intro pre r post hsplit hpre hr
    rw [hdef, hsplit]
    obtain ⟨s1, h1, h2⟩ := fixRpathsLoop_first_failure E file_to_fix pre r post
      (s.emit (.call .fixRpathsOnFile [original_file, file_to_fix])) hpre hr
    refine ⟨s1, h1, ?_⟩
    rw [h2, shellCommands_emit_call]

/-- Witness of the amended C5: the entries of the original library are replayed on its
copy, in the recorded order, and the entry recorded under the copy is not. -/
theorem fixRpathsOnFile_replays_original_witness :
    ∃ s1, fixRpathsOnFile (specEnv otoolFoo (fun _ => 0)) "/opt/local/lib/libfoo.dylib".toList
        "./libs/libfoo.dylib".toList stateWithRpaths = Outcome.done s1
      ∧ shellCommands s1.log = shellCommands stateWithRpaths.log
        ++ (stateWithRpaths.rpathsOf "/opt/local/lib/libfoo.dylib".toList).map
          (rpathEdit (specEnv otoolFoo (fun _ => 0)) "./libs/libfoo.dylib".toList)
      ∧ (stateWithRpaths.rpaths_per_file "/opt/local/lib/libfoo.dylib".toList = none →
          shellCommands s1.log = shellCommands stateWithRpaths.log) :=
  (fixRpathsOnFile_replays_original (specEnv otoolFoo (fun _ => 0))
    "/opt/local/lib/libfoo.dylib".toList "./libs/libfoo.dylib".toList stateWithRpaths).2.1
    (by decide)

/-! ### Entries the scanners cannot read -/

theorem collectRpathsLoop_log_bounded {Dep : Type} (filename : Str) :
    ∀ (n : Nat) (lines : List Str), lines.length ≤ n → ∀ (b : Bool) (s : State Dep),
      ∃ evs, (collectRpathsLoop filename b lines s).log = s.log ++ evs
        ∧ ∀ e ∈ evs, e = rpathWarning := by
  intro n
  induction n with
  | zero =>
    intro lines hlen b s
    have : lines = [] := List.length_eq_zero.1 (Nat.le_zero.1 hlen)
    subst this
    exact ⟨[], by cases b <;> rw [collectRpathsLoop, List.append_nil], by simp⟩
  | succ n ih =>
    intro lines hlen b s
    match lines, b with
    | [], b => exact ⟨[], by cases b <;> rw [collectRpathsLoop, List.append_nil], by simp⟩
    | line :: rest, true =>
      have hrest : rest.length ≤ n := by simpa using hlen
      rw [collectRpathsLoop]
      split
      · obtain ⟨evs, h1, h2⟩ := ih rest hrest true (s.emit rpathWarning)
        refine ⟨rpathWarning :: evs, ?_, ?_⟩
        · rw [show (Event.cerr "\n/!\\ WARNING: Unexpected LC_RPATH format\n".toList
            : Event Dep) = rpathWarning from rfl, h1, State.emit, List.append_assoc]
          rfl
        · intro e he
          rcases List.mem_cons.1 he with h | h
          · exact h
          · exact h2 e h
      · exact ih rest hrest false _
    | line :: rest, false =>
      have hrest : rest.length ≤ n := by simpa using hlen
      match rest, hrest with
      | [], _ =>
        refine ⟨[], ?_, by simp⟩
        simp only [collectRpathsLoop]
        split <;> simp
      | l1 :: rest1, hrest1 =>
        simp only [collectRpathsLoop]
        split
        · exact ih rest1 (by simp at hrest1; omega) true s
        · exact ih (l1 :: rest1) hrest1 false s

theorem collectRpaths_log {Dep : Type} (E : Env Dep) (filename : Str) (s : State Dep) :
    ∃ e evs, (collectRpaths E filename s).log = s.log ++ e :: evs
      ∧ ((∃ c, e = Event.system_get_output c) ∨ ∃ t, e = Event.cerr t)
      ∧ ∀ w ∈ evs, w = rpathWarning := by
  unfold collectRpaths
  split
  · exact ⟨_, [], rfl, Or.inr ⟨_, rfl⟩, by simp⟩
  · obtain ⟨evs, h1, h2⟩ := collectRpathsLoop_log_bounded filename _
      (E.tokenize (E.system_get_output (rpathsCmd filename))) (Nat.le_refl _) false
      (s.emit (.system_get_output (rpathsCmd filename)))
    refine ⟨Event.system_get_output (rpathsCmd filename), evs, ?_, Or.inl ⟨_, rfl⟩, h2⟩
    rw [h1, State.emit, List.append_assoc]
    rfl

theorem collectDependenciesLoop_outcome {Dep : Type} (raw : List Str) :
    ∀ (searching : Bool) (lines : List Str) (s : State Dep),
      (((searching && cmdBeforeName raw) || nameMissing raw) = false →
          ∃ ls, collectDependenciesLoop searching raw lines s = Res.done ls s)
        ∧ (((searching && cmdBeforeName raw) || nameMissing raw) = true →
          collectDependenciesLoop searching raw lines s = Res.exit 1 (s.emit
            (Event.cerr "\n\n/!\\ ERROR: Failed to find name before next cmd\n".toList))) := by
  induction raw with
  | nil =>
    intro searching lines s
    refine ⟨fun _ => ⟨lines, by rw [collectDependenciesLoop]⟩, fun h => ?_⟩
    simp [cmdBeforeName, nameMissing] at h
  | cons line rest ih =>
    intro searching lines s
    rw [collectDependenciesLoop]
    by_cases hcmd : find line "cmd LC_LOAD_DYLIB".toList = npos
    · have hc : isLoadCmd line = false := by simp [-String.toList, isLoadCmd, hcmd]
      rw [if_neg (fun h => h hcmd)]
      cases searching with
      | false =>
        simpa [-String.toList, cmdBeforeName, nameMissing, hc] using ih false lines s
      | true =>
        by_cases hname : find line "name ".toList = npos
        · have hn : hasName line = false := by simp [-String.toList, hasName, hname]
          simpa [-String.toList, cmdBeforeName, nameMissing, hc, hn, hname] using ih true lines s
        · have hn : hasName line = true := by simp [-String.toList, hasName, hname]
          simpa [-String.toList, cmdBeforeName, nameMissing, hc, hn, hname] using ih false
            (lines ++ [tab :: substr line (size_add (find line "name ".toList) 5) npos]) s
    · have hc : isLoadCmd line = true := by simp [-String.toList, isLoadCmd, hcmd]
      rw [if_pos hcmd]
      cases searching with
      | false =>
        simpa [-String.toList, cmdBeforeName, nameMissing, hc] using ih true lines s
      | true =>
        refine ⟨fun h => ?_, fun _ => rfl⟩
        simp [cmdBeforeName, hc] at h

set_option maxRecDepth 100000 in
/-- Claim C7 as stated fails: on a text that is not empty and carries no not-found
signal, in which the first load command has no name line before the next one,
`collectDependencies(filename, lines)` ends the process. -/
theorem collectDependencies_nameless_counterexample :
    notFound (otoolNameless (otoolCmd "app".toList)) = false
      ∧ ∃ s1, collectDependencies_lines (specEnv otoolNameless (fun _ => 0)) "app".toList []
          State.empty = Res.exit 1 s1 :=
  ⟨by decide, _, rfl⟩

/-- Claim C7, amended: `collectRpaths` has no fatal path: all it adds to the log is the
inspector run or a warning for a nonexistent file, then one warning per entry it cannot
read, and an entry without `path ` or ` (` costs that warning only, the scan going on
with the next line.  `collectDependencies(filename, lines)` completes on a text that is
not empty and carries no not-found signal when no load command is followed by another
one before a line with `name `; when one is, it prints, after the line on the file it
opens and the inspector run, `ERROR: Failed to find name before next cmd` on `cerr` and
ends the process with status 1. -/
theorem unreadable_entries {Dep : Type} (E : Env Dep) (filename : Str) (lines : List Str)
    (s : State Dep) :
    (∃ e evs, (collectRpaths E filename s).log = s.log ++ e :: evs
        ∧ ((∃ c, e = Event.system_get_output c) ∨ ∃ t, e = Event.cerr t)
        ∧ ∀ w ∈ evs, w = rpathWarning)
      ∧ (∀ (line : Str) (rest : List Str) (t : State Dep),
          find line "path ".toList = npos ∨ find line " (".toList = npos →
          collectRpathsLoop filename true (line :: rest) t
            = collectRpathsLoop filename true rest (t.emit rpathWarning))
      ∧ (notFound (E.system_get_output (otoolCmd filename)) = false →
          nameMissing (E.tokenize (E.system_get_output (otoolCmd filename))) = false →
          ∃ ls s1, collectDependencies_lines E filename lines s = Res.done ls s1)
      ∧ (notFound (E.system_get_output (otoolCmd filename)) = false →
          nameMissing (E.tokenize (E.system_get_output (otoolCmd filename))) = true →
          collectDependencies_lines E filename lines s = Res.exit 1
            (((s.emit (Event.cerr ("Open ".toList ++ filename ++ [newline]))).emit
              (Event.system_get_output (otoolCmd filename))).emit
              (Event.cerr "\n\n/!\\ ERROR: Failed to find name before next cmd\n".toList))) := by
  refine ⟨?_, ?_, ?_, ?_⟩
  · exact collectRpaths_log E filename s
  · intro line rest t h
    rw [collectRpathsLoop, if_pos h]
    rfl
  · intro hnf hnm
    unfold collectDependencies_lines
    simp only [hnf]
    obtain ⟨ls, h⟩ := (collectDependenciesLoop_outcome _ false lines _).1 (by simpa using hnm)
    exact ⟨ls, _, h⟩
  · intro hnf hnm
    unfold collectDependencies_lines
    simp only [hnf]
    exact (collectDependenciesLoop_outcome _ false lines _).2 (by simpa using hnm)

set_option maxRecDepth 100000 in
/-- Witness of the amended C7: the output for `libfoo.dylib` is read to the end. -/
theorem unreadable_entries_witness :
    ∃ ls s1, collectDependencies_lines (specEnv otoolFoo (fun _ => 0)) "app".toList []
      State.empty = Res.done ls s1 :=
  (unreadable_entries (specEnv otoolFoo (fun _ => 0)) "app".toList [] State.empty).2.2.1
    (by decide) (by decide)

/-! ### Searching in strings -/

theorem isPrefixOf_length_le (pat s : Str) (h : pat.isPrefixOf s = true) :
    pat.length ≤ s.length :=
  (List.isPrefixOf_iff_prefix.1 h).length_le

theorem findIdx_bound (pat : Str) : ∀ (s : Str) (i : Nat), findIdx s pat = some i →
    i + pat.length ≤ s.length := by
  intro s
  induction s with
  | nil =>
    intro i h
    rw [findIdx] at h
    split at h
    · rename_i hp
      have := isPrefixOf_length_le pat [] hp
      cases h
      simpa using this
    · cases h
  | cons c t ih =>
    intro i h
    rw [findIdx] at h
    split at h
    · rename_i hp
      have := isPrefixOf_length_le pat (c :: t) hp
      cases h
      simpa using this
    · split at h
      · rename_i j hj
        cases h
        have := ih j hj
        simp only [List.length_cons]
        omega
      · cases h

theorem rfindIdx_bound (pat : Str) : ∀ (s : Str) (i : Nat), rfindIdx s pat = some i →
    i + pat.length ≤ s.length := by
  intro s
  induction s with
  | nil =>
    intro i h
    rw [rfindIdx] at h
    split at h
    · rename_i hp
      have := isPrefixOf_length_le pat [] hp
      cases h
      simpa using this
    · cases h
  | cons c t ih =>
    intro i h
    rw [rfindIdx] at h
    split at h
    · rename_i j hj
      cases h
      have := ih j hj
      simp only [List.length_cons]
      omega
    · split at h
      · rename_i hp
        have := isPrefixOf_length_le pat (c :: t) hp
        cases h
        simpa using this
      · cases h

theorem findIdx_cons_ne (c p : Char) (ps t : Str) (hne : p ≠ c) :
    findIdx (c :: t) (p :: ps) = (findIdx t (p :: ps)).map (· + 1) := by
  rw [findIdx]
  have : (p :: ps).isPrefixOf (c :: t) = false := by
    simp [List.isPrefixOf, hne]
  rw [this]
  cases findIdx t (p :: ps) <;> rfl

theorem rfindIdx_cons_ne (c p : Char) (ps t : Str) (hne : p ≠ c) :
    rfindIdx (c :: t) (p :: ps) = (rfindIdx t (p :: ps)).map (· + 1) := by
  rw [rfindIdx]
  have : (p :: ps).isPrefixOf (c :: t) = false := by
    simp [List.isPrefixOf, hne]
  rw [this]
  cases rfindIdx t (p :: ps) <;> rfl

theorem find_eq_of_findIdx (s pat : Str) (i : Nat) (h : findIdx s pat = some i) :
    find s pat = i := by
  rw [find, h]
  rfl

theorem findIdx_of_find_ne (s pat : Str) (h : find s pat ≠ npos) :
    ∃ i, findIdx s pat = some i := by
  rw [find] at h
  cases hf : findIdx s pat with
  | none => rw [hf] at h; exact absurd rfl h
  | some i => exact ⟨i, rfl⟩

/-- What `collectDependencies(filename, lines)` stores for a name line is the tab and
the text after `name `. -/
theorem stored_text (line : Str) (hlen : line.length < 2 ^ 64)
    (hname : find line "name ".toList ≠ npos) :
    substr line (size_add (find line "name ".toList) 5) npos = textAfterName line := by
  obtain ⟨i, hi⟩ := findIdx_of_find_ne _ _ hname
  have hb := findIdx_bound _ _ _ hi
  have h5 : "name ".toList.length = 5 := rfl
  rw [h5] at hb
  rw [find_eq_of_findIdx _ _ _ hi, textAfterName, hi]
  have h1 : size_add i 5 = i + 5 := by
    rw [size_add]
    exact Nat.mod_eq_of_lt (by omega)
  rw [h1, substr]
  apply List.take_of_length_le
  rw [List.length_drop, npos]
  omega

theorem lineRef_stored (t : Str) (hlen : t.length + 1 < 2 ^ 64) :
    lineRef (tab :: t) = if (findIdx t ".framework".toList).isSome then []
      else [beforeLastParen t] := by
  have hdot : ('.' : Char) ≠ tab := by decide
  have hsp : (' ' : Char) ≠ tab := by decide
  have hfw : findIdx (tab :: t) ".framework".toList
      = (findIdx t ".framework".toList).map (· + 1) :=
    findIdx_cons_ne tab '.' "framework".toList t hdot
  have hpar : rfindIdx (tab :: t) " (".toList = (rfindIdx t " (".toList).map (· + 1) :=
    rfindIdx_cons_ne tab ' ' "(".toList t hsp
  rw [lineRef, if_neg (by simp)]
  cases hf : findIdx t ".framework".toList with
  | some j =>
    have hb := findIdx_bound _ _ _ hf
    have h10 : ".framework".toList.length = 10 := rfl
    rw [h10] at hb
    have : find (tab :: t) ".framework".toList ≠ npos := by
      rw [find, hfw, hf, npos]
      simp only [Option.map_some', Option.getD_some]
      omega
    rw [if_pos this]
    rfl
  | none =>
    have : ¬ find (tab :: t) ".framework".toList ≠ npos := by
      rw [find, hfw, hf]
      simp
    rw [if_neg this]
    simp only [Option.isSome_none, Bool.false_eq_true, if_false, List.cons.injEq, and_true]
    rw [rfind, hpar, beforeLastParen]
    cases hr : rfindIdx t " (".toList with
    | some j =>
      have hb := rfindIdx_bound _ _ _ hr
      have h2 : " (".toList.length = 2 := rfl
      rw [h2] at hb
      simp only [Option.map_some', Option.getD_some]
      have : size_sub (j + 1) 1 = j := by
        rw [size_sub]
        have : j + 1 + 2 ^ 64 - 1 = j + 2 ^ 64 := by omega
        rw [this, Nat.add_mod_right]
        exact Nat.mod_eq_of_lt (by omega)
      rw [this, substr]
      rfl
    | none =>
      simp only [Option.map_none', Option.getD_none]
      rw [substr]
      apply List.take_of_length_le
      simp only [List.drop_succ_cons, List.drop_zero]
      rw [size_sub, npos]
      have : (2 ^ 64 - 1 + 2 ^ 64 - 1) % 2 ^ 64 = 2 ^ 64 - 2 := by norm_num
      rw [this]
      omega

/-! ### The calls of `addDependency` made by `collectDependencies` -/

theorem callsOf_append {Dep : Type} (fn : Fn) (l1 l2 : List (Event Dep)) :
    callsOf fn (l1 ++ l2) = callsOf fn l1 ++ callsOf fn l2 := by
  simp [callsOf, List.filterMap_append]

theorem callsOf_warnings {Dep : Type} (fn : Fn) (evs : List (Event Dep))
    (h : ∀ w ∈ evs, w = rpathWarning) : callsOf fn evs = [] := by
  induction evs with
  | nil => rfl
  | cons e t ih =>
    have he : e = rpathWarning := h e (List.mem_cons_self _ _)
    have ht := ih (fun w hw => h w (List.mem_cons_of_mem _ hw))
    subst he
    rw [show (rpathWarning :: t : List (Event Dep)) = [rpathWarning] ++ t from rfl,
      callsOf_append, ht]
    rfl

theorem callsOf_collectRpathsForFilename {Dep : Type} (E : Env Dep) (fn : Fn)
    (filename : Str) (s : State Dep) :
    callsOf fn (collectRpathsForFilename E filename s).log = callsOf fn s.log := by
  unfold collectRpathsForFilename
  split
  · obtain ⟨e, evs, h1, h2, h3⟩ := collectRpaths_log E filename s
    rw [h1, callsOf_append, show (e :: evs) = [e] ++ evs from rfl, callsOf_append,
      callsOf_warnings fn evs h3]
    rcases h2 with ⟨c, rfl⟩ | ⟨t, rfl⟩ <;> simp [callsOf]
  · rfl

theorem addDependency_log {Dep : Type} (E : Env Dep) (path filename : Str) (s : State Dep) :
    (addDependency E path filename s).log
      = s.log ++ [Event.call Fn.addDependency [path, filename]] := by
  unfold addDependency
  by_cases h1 : E.isPrefixBundled (E.getPrefix (E.mkDependency path)) = false
  · simp [h1]
  · by_cases h2 : (mergeLoop E (E.mkDependency path) s.deps).1 = false <;>
    by_cases h3 : (mergeLoop E (E.mkDependency path) ((s.deps_per_file filename).getD [])).1
      = false <;> simp [h1, h2, h3]

theorem callsOf_addDependency {Dep : Type} (E : Env Dep) (path filename : Str)
    (s : State Dep) :
    callsOf Fn.addDependency (addDependency E path filename s).log
      = callsOf Fn.addDependency s.log ++ [[path, filename]] := by
  rw [addDependency_log, callsOf_append]
  rfl

theorem callsOf_collectDependenciesEach {Dep : Type} (E : Env Dep) (filename : Str)
    (ls : List Str) : ∀ s : State Dep,
    callsOf Fn.addDependency (collectDependenciesEach E filename ls s).log
      = callsOf Fn.addDependency s.log ++ (ls.flatMap lineRef).map (fun r => [r, filename]) := by
  induction ls with
  | nil => intro s; simp [collectDependenciesEach]
  | cons line rest ih =>
    intro s
    rw [collectDependenciesEach, List.flatMap_cons, lineRef]
    split
    · rw [ih]; rfl
    · split
      · rw [ih]; rfl
      · rw [ih, callsOf_addDependency]
        have : callsOf Fn.addDependency
            (if isRpath (substr line 1 (size_sub (rfind line " (".toList) 1)) = true
              then collectRpathsForFilename E filename s else s).log
            = callsOf Fn.addDependency s.log := by
          split
          · exact callsOf_collectRpathsForFilename E _ filename s
          · rfl
        rw [this]
        simp

theorem collectDependenciesLoop_refs {Dep : Type} (raw : List Str) :
    ∀ (searching : Bool) (lines : List Str) (s : State Dep) (ls : List Str) (s1 : State Dep),
      (∀ l ∈ raw, l.length < 2 ^ 64) →
      collectDependenciesLoop searching raw lines s = Res.done ls s1 →
      s1 = s ∧ ls.flatMap lineRef = lines.flatMap lineRef
        ++ (if searching then
              (match nameLine raw with
                | some nl => nameLineRef nl
                | none => []) ++ loadCommandRefs raw
            else loadCommandRefs raw) := by
  induction raw with
  | nil =>
    intro searching lines s ls s1 _ h
    rw [collectDependenciesLoop] at h
    cases h
    cases searching <;> simp [nameLine, loadCommandRefs]
  | cons line rest ih =>
    intro searching lines s ls s1 hlen h
    have hrest : ∀ l ∈ rest, l.length < 2 ^ 64 := fun l hl => hlen l (List.mem_cons_of_mem _ hl)
    rw [collectDependenciesLoop] at h
    by_cases hcmd : find line "cmd LC_LOAD_DYLIB".toList = npos
    · have hc : isLoadCmd line = false := by simp [-String.toList, isLoadCmd, hcmd]
      rw [if_neg (fun h => h hcmd)] at h
      cases searching with
      | false =>
        have := ih false lines s ls s1 hrest (by simpa using h)
        simpa [loadCommandRefs, hc] using this
      | true =>
        by_cases hname : find line "name ".toList = npos
        · have hn : hasName line = false := by simp [-String.toList, hasName, hname]
          have := ih true lines s ls s1 hrest (by simpa [-String.toList, hname] using h)
          simpa [loadCommandRefs, nameLine, hc, hn] using this
        · have hn : hasName line = true := by simp [-String.toList, hasName, hname]
          have := ih false _ s ls s1 hrest (by simpa [-String.toList, hname] using h)
          have hl := hlen line (List.mem_cons_self _ _)
          have htxt := stored_text line hl hname
          obtain ⟨i, hi⟩ := findIdx_of_find_ne _ _ hname
          have hb := findIdx_bound _ _ _ hi
          have h5 : "name ".toList.length = 5 := rfl
          rw [h5] at hb
          have hlt : (textAfterName line).length + 1 < 2 ^ 64 := by
            rw [textAfterName, hi]
            simp only [List.length_drop]
            omega
          have href : lineRef (tab :: textAfterName line) = nameLineRef line := by
            rw [lineRef_stored _ hlt, nameLineRef]
          rw [htxt] at this
          refine ⟨this.1, ?_⟩
          rw [this.2, List.flatMap_append]
          simp [-String.toList, loadCommandRefs, nameLine, hc, hn, href]
    · have hc : isLoadCmd line = true := by simp [-String.toList, isLoadCmd, hcmd]
      rw [if_pos hcmd] at h
      cases searching with
      | false =>
        have := ih true lines s ls s1 hrest (by simpa using h)
        simpa [loadCommandRefs, hc] using this
      | true => simp at h

set_option maxRecDepth 100000 in
/-- Claim C10 as stated fails: the name line of the only load command holds
`.framework`, before `name `, and `addDependency` is called for its reference all the
same. -/
theorem collectDependencies_framework_counterexample :
    (∃ s1, collectDependencies (specEnv otoolFrameworkFirst (fun _ => 0)) "app".toList
        State.empty = Outcome.done s1)
      ∧ callsOf Fn.addDependency (collectDependencies (specEnv otoolFrameworkFirst (fun _ => 0))
          "app".toList State.empty).state.log
        = [["/opt/local/lib/libz.dylib".toList, "app".toList]]
      ∧ (loadCommandRefsAsStated ((specEnv otoolFrameworkFirst (fun _ => 0)).tokenize
          (otoolFrameworkFirst (otoolCmd "app".toList)))).map (fun r => [r, "app".toList])
        = [] :=
  ⟨⟨_, rfl⟩, by decide, by decide⟩

/-- Claim C10, amended: when `collectDependencies(filename)` returns, it has called
`addDependency(ref, filename)` exactly once for each load command of the output that
has a name line whose text after `name ` does not hold `.framework`, in the order of
the commands, `ref` being that text up to, and without, its last ` (` (all of it when
there is none); it has called `addDependency` for nothing else, and
`deps_collected[filename]` is set. -/
theorem collectDependencies_calls {Dep : Type} (E : Env Dep) (filename : Str)
    (s s1 : State Dep) (hdone : collectDependencies E filename s = Outcome.done s1)
    (hlen : ∀ l ∈ E.tokenize (E.system_get_output (otoolCmd filename)), l.length < 2 ^ 64) :
    callsOf Fn.addDependency s1.log = callsOf Fn.addDependency s.log
        ++ (loadCommandRefs (E.tokenize (E.system_get_output (otoolCmd filename)))).map
          (fun r => [r, filename])
      ∧ s1.deps_collected filename = some true := by
  unfold collectDependencies at hdone
  split at hdone
  · cases hdone
  · rename_i lines s2 hl
    cases hdone
    unfold collectDependencies_lines at hl
    split at hl
    · cases hl
    · obtain ⟨hs, hrefs⟩ := collectDependenciesLoop_refs _ false [] _ lines s2 hlen hl
      subst hs
      refine ⟨?_, by simp [mapSet]⟩
      show callsOf Fn.addDependency (collectDependenciesEach E filename lines _).log = _
      rw [callsOf_collectDependenciesEach, hrefs]
      simp [State.emit, callsOf, List.filterMap_append]

set_option maxRecDepth 100000 in
/-- Witness of the amended C10: the output for `libfoo.dylib`. -/
theorem collectDependencies_calls_witness :
    callsOf Fn.addDependency (collectDependencies (specEnv otoolFoo (fun _ => 0)) "app".toList
        State.empty).state.log
      = callsOf Fn.addDependency (State.empty : State Dependency).log
        ++ (loadCommandRefs ((specEnv otoolFoo (fun _ => 0)).tokenize
          ((specEnv otoolFoo (fun _ => 0)).system_get_output (otoolCmd "app".toList)))).map
            (fun r => [r, "app".toList])
      ∧ (collectDependencies (specEnv otoolFoo (fun _ => 0)) "app".toList
        State.empty).state.deps_collected "app".toList = some true :=
  collectDependencies_calls (specEnv otoolFoo (fun _ => 0)) "app".toList State.empty _ rfl
    (by decide)

/-! ### Collecting the search paths of a file twice -/

theorem collectRpathsForFilename_cached {Dep : Type} (E : Env Dep) (filename : Str)
    (s : State Dep) (h : s.rpaths_per_file filename ≠ none) :
    collectRpathsForFilename E filename s = s := by
  rw [collectRpathsForFilename, if_neg h]

set_option maxRecDepth 100000 in
/-- Claim C9 on a file without search path: the file exists, its output has no
`LC_RPATH`, the first call of `collectRpathsForFilename` runs the inspector and leaves
no entry for the file in `rpaths_per_file`, and the second call runs the inspector a
second time. -/
theorem collectRpathsForFilename_inspects_again :
    (specEnv otoolNoRpath (fun _ => 0)).fileExists "/opt/local/lib/libfoo.dylib".toList = true
      ∧ inspectorRuns (collectRpathsForFilename (specEnv otoolNoRpath (fun _ => 0))
          "/opt/local/lib/libfoo.dylib".toList State.empty).log
        = [rpathsCmd "/opt/local/lib/libfoo.dylib".toList]
      ∧ (collectRpathsForFilename (specEnv otoolNoRpath (fun _ => 0))
          "/opt/local/lib/libfoo.dylib".toList State.empty).rpaths_per_file
          "/opt/local/lib/libfoo.dylib".toList = none
      ∧ inspectorRuns (collectRpathsForFilename (specEnv otoolNoRpath (fun _ => 0))
          "/opt/local/lib/libfoo.dylib".toList
          (collectRpathsForFilename (specEnv otoolNoRpath (fun _ => 0))
            "/opt/local/lib/libfoo.dylib".toList State.empty)).log
        = [rpathsCmd "/opt/local/lib/libfoo.dylib".toList,
            rpathsCmd "/opt/local/lib/libfoo.dylib".toList] := by
  refine ⟨rfl, by decide, by decide, by decide⟩

/-! ### How the functions extend the log and the global list -/

theorem Grows.stay {Dep α : Type} (view : Dep → α) (P : Event Dep → Prop) (s : State Dep) :
    Grows view P s s :=
  ⟨⟨[], (List.append_nil _).symm, by simp⟩, List.prefix_refl _⟩

theorem Grows.chain {Dep α : Type} {view : Dep → α} {P : Event Dep → Prop}
    {s t u : State Dep} (h1 : Grows view P s t) (h2 : Grows view P t u) : Grows view P s u := by
  obtain ⟨⟨e1, hl1, hp1⟩, hd1⟩ := h1
  obtain ⟨⟨e2, hl2, hp2⟩, hd2⟩ := h2
  refine ⟨⟨e1 ++ e2, by rw [hl2, hl1, List.append_assoc], ?_⟩, hd1.trans hd2⟩
  intro e he
  rcases List.mem_append.1 he with h | h
  · exact hp1 e h
  · exact hp2 e h

theorem Grows.weaken {Dep α : Type} {view : Dep → α} {P Q : Event Dep → Prop}
    {s t : State Dep} (h : Grows view P s t) (hPQ : ∀ e, P e → Q e) : Grows view Q s t := by
  obtain ⟨⟨e1, hl1, hp1⟩, hd1⟩ := h
  exact ⟨⟨e1, hl1, fun e he => hPQ e (hp1 e he)⟩, hd1⟩

theorem Grows.emit {Dep α : Type} (view : Dep → α) (P : Event Dep → Prop) (s : State Dep)
    (e : Event Dep) (he : P e) : Grows view P s (s.emit e) :=
  ⟨⟨[e], rfl, by simpa using he⟩, List.prefix_refl _⟩

theorem Grows.of_log_deps {Dep α : Type} (view : Dep → α) (P : Event Dep → Prop)
    (s t : State Dep) (evs : List (Event Dep)) (hlog : t.log = s.log ++ evs)
    (hP : ∀ e ∈ evs, P e) (hdeps : t.deps = s.deps) : Grows view P s t :=
  ⟨⟨evs, hlog, hP⟩, by rw [hdeps]⟩

theorem collectRpathsLoop_deps {Dep : Type} (filename : Str) :
    ∀ (n : Nat) (lines : List Str), lines.length ≤ n → ∀ (b : Bool) (s : State Dep),
      (collectRpathsLoop filename b lines s).deps = s.deps := by
  intro n
  induction n with
  | zero =>
    intro lines hlen b s
    have : lines = [] := List.length_eq_zero.1 (Nat.le_zero.1 hlen)
    subst this
    cases b <;> rw [collectRpathsLoop]
  | succ n ih =>
    intro lines hlen b s
    match lines, b with
    | [], b => cases b <;> rw [collectRpathsLoop]
    | line :: rest, true =>
      have hrest : rest.length ≤ n := by simpa using hlen
      rw [collectRpathsLoop]
      split
      · rw [ih rest hrest]; rfl
      · rw [ih rest hrest]
    | line :: rest, false =>
      have hrest : rest.length ≤ n := by simpa using hlen
      match rest, hrest with
      | [], _ =>
        simp only [collectRpathsLoop]
        split <;> rfl
      | l1 :: rest1, hrest1 =>
        simp only [collectRpathsLoop]
        split
        · exact ih rest1 (by simp at hrest1; omega) true s
        · exact ih (l1 :: rest1) hrest1 false s

theorem rpathWarning_isInspection {Dep : Type} :
    (rpathWarning : Event Dep).isInspection = true := rfl

theorem collectRpaths_grows {Dep α : Type} (E : Env Dep) (view : Dep → α) (filename : Str)
    (s : State Dep) :
    Grows view (fun e => e.isInspection = true) s (collectRpaths E filename s) := by
  obtain ⟨e, evs, h1, h2, h3⟩ := collectRpaths_log E filename s
  refine Grows.of_log_deps view _ s _ (e :: evs) h1 ?_ ?_
  · intro w hw
    rcases List.mem_cons.1 hw with h | h
    · subst h
      rcases h2 with ⟨c, rfl⟩ | ⟨t, rfl⟩ <;> rfl
    · rw [h3 w h]; rfl
  · unfold collectRpaths
    split
    · rfl
    · rw [collectRpathsLoop_deps filename _ _ (Nat.le_refl _)]; rfl

theorem collectRpathsForFilename_grows {Dep α : Type} (E : Env Dep) (view : Dep → α)
    (filename : Str) (s : State Dep) :
    Grows view (fun e => e.isInspection = true) s (collectRpathsForFilename E filename s) := by
  unfold collectRpathsForFilename
  split
  · exact collectRpaths_grows E view filename s
  · exact Grows.stay _ _ _

theorem mergeLoop_view {Dep α : Type} (E : Env Dep) (view : Dep → α)
    (hview : ∀ a b, view (E.mergeIfSameAs a b).2 = view b) (dep : Dep) (l : List Dep) :
    (mergeLoop E dep l).2.map view = l.map view := by
  induction l with
  | nil => rfl
  | cons d ds ih => simp [mergeLoop, ih, hview]

theorem addDependency_grows {Dep α : Type} (E : Env Dep) (view : Dep → α)
    (hview : ∀ a b, view (E.mergeIfSameAs a b).2 = view b) (path filename : Str)
    (s : State Dep) :
    Grows view (fun e => e.isInspection = true) s (addDependency E path filename s) := by
  refine ⟨⟨_, addDependency_log E path filename s, ?_⟩, ?_⟩
  · intro e he
    rw [List.mem_singleton] at he
    subst he
    rfl
  · rw [addDependency_deps]
    split
    · rw [List.map_append, mergeLoop_view E view hview]
      exact List.prefix_append _ _
    · rw [mergeLoop_view E view hview]

theorem collectDependenciesLoop_state {Dep : Type} (raw : List Str) :
    ∀ (searching : Bool) (lines : List Str) (s : State Dep),
      (∃ ls, collectDependenciesLoop searching raw lines s = Res.done ls s)
        ∨ ∃ t, collectDependenciesLoop searching raw lines s
          = Res.exit 1 (s.emit (Event.cerr t)) := by
  induction raw with
  | nil =>
    intro searching lines s
    exact Or.inl ⟨lines, by rw [collectDependenciesLoop]⟩
  | cons line rest ih =>
    intro searching lines s
    rw [collectDependenciesLoop]
    split
    · split
      · exact Or.inr ⟨_, rfl⟩
      · exact ih _ _ _
    · split
      · simp only []
        split
        · exact ih _ _ _
        · exact ih _ _ _
      · exact ih _ _ _

theorem Grows.emit_inspection {Dep α : Type} (view : Dep → α) (s : State Dep)
    (e : Event Dep) (he : e.isInspection = true) :
    Grows view (fun e => e.isInspection = true) s (s.emit e) :=
  Grows.emit view _ s e he

theorem Grows.emit_quiet {Dep α : Type} (E : Env Dep) (view : Dep → α) (s : State Dep)
    (e : Event Dep) (he : stepOf E e = none) :
    Grows view (fun e => stepOf E e = none) s (s.emit e) :=
  Grows.emit view _ s e he

theorem collectDependencies_lines_grows {Dep α : Type} (E : Env Dep) (view : Dep → α)
    (filename : Str) (lines : List Str) (s : State Dep) :
    Grows view (fun e => e.isInspection = true) s
      (collectDependencies_lines E filename lines s).state := by
  have h2 : Grows view (fun e : Event Dep => e.isInspection = true) s
      ((s.emit (.cerr ("Open ".toList ++ filename ++ [newline]))).emit
        (.system_get_output (otoolCmd filename))) :=
    (Grows.emit_inspection view s (.cerr ("Open ".toList ++ filename ++ [newline])) rfl).chain
      (Grows.emit_inspection view _ (.system_get_output (otoolCmd filename)) rfl)
  unfold collectDependencies_lines
  split
  · exact h2.chain (Grows.emit_inspection view _ _ rfl)
  · rcases collectDependenciesLoop_state
      (E.tokenize (E.system_get_output (otoolCmd filename))) false lines
      ((s.emit (.cerr ("Open ".toList ++ filename ++ [newline]))).emit
        (.system_get_output (otoolCmd filename))) with ⟨ls, h⟩ | ⟨t, h⟩
    · rw [h]; exact h2
    · rw [h]; exact h2.chain (Grows.emit_inspection view _ _ rfl)

theorem collectDependenciesEach_grows {Dep α : Type} (E : Env Dep) (view : Dep → α)
    (hview : ∀ a b, view (E.mergeIfSameAs a b).2 = view b) (filename : Str) (ls : List Str) :
    ∀ s : State Dep,
      Grows view (fun e => e.isInspection = true) s (collectDependenciesEach E filename ls s) := by
  induction ls with
  | nil => intro s; rw [collectDependenciesEach]; exact Grows.stay _ _ _
  | cons line rest ih =>
    intro s
    rw [collectDependenciesEach]
    split
    · exact ih s
    · split
      · exact ih s
      · refine Grows.chain ?_ (ih _)
        refine Grows.chain ?_ (addDependency_grows E view hview _ _ _)
        split
        · exact collectRpathsForFilename_grows E view filename s
        · exact Grows.stay _ _ _

theorem collectDependencies_grows {Dep α : Type} (E : Env Dep) (view : Dep → α)
    (hview : ∀ a b, view (E.mergeIfSameAs a b).2 = view b) (filename : Str) (s : State Dep) :
    Grows view (fun e => e.isInspection = true) s (collectDependencies E filename s).state := by
  have h := collectDependencies_lines_grows E view filename [] s
  unfold collectDependencies
  split
  · rename_i c s1 hl
    rw [hl] at h
    exact h
  · rename_i lines s1 hl
    rw [hl] at h
    exact h.chain (collectDependenciesEach_grows E view hview filename lines s1)

theorem steps_append {Dep : Type} (E : Env Dep) (l1 l2 : List (Event Dep)) :
    steps E (l1 ++ l2) = steps E l1 ++ steps E l2 := by
  simp [steps, List.filterMap_append]

theorem steps_nil_of_forall {Dep : Type} (E : Env Dep) (evs : List (Event Dep))
    (h : ∀ e ∈ evs, stepOf E e = none) : steps E evs = [] := by
  induction evs with
  | nil => rfl
  | cons e t ih =>
    rw [show e :: t = [e] ++ t from rfl, steps_append,
      ih (fun w hw => h w (List.mem_cons_of_mem _ hw))]
    simp [steps, h e (List.mem_cons_self _ _)]

theorem steps_of_grows {Dep α : Type} (E : Env Dep) (view : Dep → α) (s t : State Dep)
    (h : Grows view (fun e => stepOf E e = none) s t) : steps E t.log = steps E s.log := by
  obtain ⟨⟨evs, hl, hp⟩, _⟩ := h
  rw [hl, steps_append, steps_nil_of_forall E evs hp, List.append_nil]

theorem stepOf_of_isInspection {Dep : Type} (E : Env Dep) (e : Event Dep)
    (h : e.isInspection = true) : stepOf E e = none := by
  cases e with
  | call fn args => cases fn <;> first | rfl | cases h
  | _ => first | rfl | cases h

theorem steps_emit {Dep : Type} (E : Env Dep) (s : State Dep) (e : Event Dep) :
    steps E (s.emit e).log = steps E s.log ++ (stepOf E e).toList := by
  rw [State.emit, steps_append]
  cases h : stepOf E e <;> simp [steps, h]

theorem changeLibPathsLoop_grows {Dep α : Type} (E : Env Dep) (view : Dep → α)
    (file_to_fix : Str) (l : List Dep) : ∀ s : State Dep,
    Grows view (fun e => stepOf E e = none) s (changeLibPathsLoop E file_to_fix l s).state := by
  induction l with
  | nil => intro s; exact Grows.stay _ _ _
  | cons d rest ih =>
    intro s
    rw [changeLibPathsLoop]
    split
    · exact Grows.emit_quiet E view s _ rfl
    · exact (Grows.emit_quiet E view s (.fixFileThatDependsOnMe d file_to_fix) rfl).chain (ih _)

theorem changeLibPathsOnFile_grows {Dep α : Type} (E : Env Dep) (view : Dep → α)
    (hview : ∀ a b, view (E.mergeIfSameAs a b).2 = view b) (file_to_fix : Str)
    (s : State Dep) :
    Grows view (fun e => stepOf E e = none)
      (s.emit (.call .changeLibPathsOnFile [file_to_fix]))
      (changeLibPathsOnFile E file_to_fix s).state := by
  have hc : Grows view (fun e => stepOf E e = none)
      (s.emit (.call .changeLibPathsOnFile [file_to_fix]))
      (if (s.emit (.call .changeLibPathsOnFile [file_to_fix])).deps_collected file_to_fix = none
        then collectDependencies E file_to_fix (s.emit (.call .changeLibPathsOnFile [file_to_fix]))
        else Outcome.done (s.emit (.call .changeLibPathsOnFile [file_to_fix]))).state := by
    split
    · exact (collectDependencies_grows E view hview file_to_fix _).weaken
        (stepOf_of_isInspection E)
    · exact Grows.stay _ _ _
  unfold changeLibPathsOnFile
  simp only []
  split
  · rename_i c s1 h1
    rw [h1] at hc
    exact hc
  · rename_i s1 h1
    rw [h1] at hc
    refine hc.chain (Grows.chain ?_ (changeLibPathsLoop_grows E view file_to_fix _ _))
    exact ⟨⟨_, rfl, by simp [stepOf]⟩, List.prefix_refl _⟩

theorem fixRpathsLoop_grows {Dep α : Type} (E : Env Dep) (view : Dep → α)
    (file_to_fix : Str) (l : List Str) : ∀ s : State Dep,
    Grows view (fun e => stepOf E e = none) s (fixRpathsLoop E file_to_fix l s).state := by
  induction l with
  | nil => intro s; exact Grows.stay _ _ _
  | cons d rest ih =>
    intro s
    rw [fixRpathsLoop]
    split
    · exact (Grows.emit_quiet E view s (.systemp (rpathEdit E file_to_fix d)) rfl).chain
        (Grows.emit_quiet E view _ (.cerr _) rfl)
    · exact (Grows.emit_quiet E view s (.systemp (rpathEdit E file_to_fix d)) rfl).chain (ih _)

theorem fixRpathsOnFile_grows {Dep α : Type} (E : Env Dep) (view : Dep → α)
    (original_file file_to_fix : Str) (s : State Dep) :
    Grows view (fun e => stepOf E e = none)
      (s.emit (.call .fixRpathsOnFile [original_file, file_to_fix]))
      (fixRpathsOnFile E original_file file_to_fix s).state :=
  fixRpathsLoop_grows E view file_to_fix _ _

theorem createDestDir_grows {Dep α : Type} (E : Env Dep) (view : Dep → α) (s : State Dep) :
    Grows view (fun e => stepOf E e = none) (s.emit (.call .createDestDir []))
      (createDestDir E s).state := by
  have e1 : ∀ (t : State Dep) (x : Str), Grows view (fun e => stepOf E e = none) t
      (t.emit (.cout x)) := fun t x => Grows.emit_quiet E view t _ rfl
  have e2 : ∀ (t : State Dep) (x : Str), Grows view (fun e => stepOf E e = none) t
      (t.emit (.cerr x)) := fun t x => Grows.emit_quiet E view t _ rfl
  have e3 : ∀ (t : State Dep) (x : Str), Grows view (fun e => stepOf E e = none) t
      (t.emit (.systemp x)) := fun t x => Grows.emit_quiet E view t _ rfl
  unfold createDestDir
  simp only []
  split
  · rename_i c s2 b heq
    split at heq
    · split at heq
      · cases heq
        exact (e1 _ _).chain ((e1 _ _).chain ((e3 _ _).chain (e2 _ _)))
      · cases heq
    · cases heq
  · rename_i s2 b heq
    have hs2 : Grows view (fun e => stepOf E e = none) (s.emit (.call .createDestDir [])) s2 := by
      split at heq
      · split at heq
        · cases heq
        · cases heq
          exact (e1 _ _).chain ((e1 _ _).chain (e3 _ _))
      · cases heq
        exact e1 _ _
    split
    · split
      · split
        · exact hs2.chain ((e1 _ _).chain ((e3 _ _).chain (e2 _ _)))
        · exact hs2.chain ((e1 _ _).chain (e3 _ _))
      · exact hs2.chain (e2 _ _)
    · exact hs2

/-! ### The order of the steps of `doneWithDeps_go` -/

theorem Grows.log_extends {Dep α : Type} {view : Dep → α} {P : Event Dep → Prop}
    {s t : State Dep} (h : Grows view P s t) : s.log <+: t.log := by
  obtain ⟨⟨evs, hl, _⟩, _⟩ := h
  exact ⟨evs, hl.symm⟩

theorem log_grows_emit {Dep : Type} (s : State Dep) (e : Event Dep) : s.log <+: (s.emit e).log :=
  ⟨[e], rfl⟩

theorem printLoop_eq {Dep : Type} : ∀ (count n : Nat) (s : State Dep),
    printLoop count n s
      = { s with log := s.log ++ ((s.deps.drop n).take count).map Event.print } := by
  intro count
  induction count with
  | zero => intro n s; simp [printLoop]
  | succ count ih =>
    intro n s
    rw [printLoop]
    cases hd : s.deps[n]? with
    | none =>
      have : s.deps.drop n = [] := by
        rw [List.drop_eq_nil_iff]
        by_contra hcon
        rw [List.getElem?_eq_getElem (by omega)] at hd
        cases hd
      simp [this]
    | some d =>
      have hlt : n < s.deps.length := by
        by_contra hcon
        rw [List.getElem?_eq_none (by omega)] at hd
        cases hd
      have hdrop : s.deps.drop n = d :: s.deps.drop (n + 1) := by
        rw [List.drop_eq_getElem_cons hlt]
        rw [List.getElem?_eq_getElem hlt] at hd
        cases hd
        rfl
      simp only []
      rw [ih, hdrop]
      simp [State.emit]

theorem getElem?_of_view_initial {Dep α : Type} (view : Dep → α) (entry : List α)
    (l : List Dep) (h : entry <+: l.map view) (n : Nat) (hn : n < entry.length) :
    ∃ d, l[n]? = some d ∧ entry[n]? = some (view d) := by
  obtain ⟨t, ht⟩ := h
  have h1 : (l.map view)[n]? = entry[n]? := by
    rw [← ht, List.getElem?_append_left hn]
  rw [List.getElem?_map] at h1
  cases hd : l[n]? with
  | none =>
    rw [hd, List.getElem?_eq_getElem hn] at h1
    cases h1
  | some d =>
    rw [hd] at h1
    exact ⟨d, rfl, h1.symm⟩

theorem installLoop_steps {Dep : Type} (E : Env Dep) (hP : KeepsPaths E)
    (entry : List (Str × Str)) : ∀ (count n : Nat) (s s1 : State Dep),
    installLoop E count n s = Outcome.done s1 → entry <+: s.deps.map (paths E) →
    n + count = entry.length →
    steps E s1.log = steps E s.log ++ (entry.drop n).flatMap (fun p =>
        [Step.copyYourself p.1 p.2, Step.changeLibPathsOnFile p.2,
          Step.fixRpathsOnFile p.1 p.2])
      ∧ s.log <+: s1.log := by
  have hview : ∀ a b, paths E (E.mergeIfSameAs a b).2 = paths E b := by
    intro a b
    rw [paths, paths, (hP a b).1, (hP a b).2]
  intro count
  induction count with
  | zero =>
    intro n s s1 h _ hn
    rw [installLoop] at h
    cases h
    have : entry.drop n = [] := List.drop_eq_nil_iff.2 (by omega)
    rw [this]
    exact ⟨by simp, List.prefix_refl _⟩
  | succ count ih =>
    intro n s s1 h hpre hn
    have hlt : n < entry.length := by omega
    obtain ⟨d, hd, hen⟩ := getElem?_of_view_initial (paths E) entry s.deps hpre n hlt
    have hdrop : entry.drop n = paths E d :: entry.drop (n + 1) := by
      rw [List.drop_eq_getElem_cons hlt]
      rw [List.getElem?_eq_getElem hlt] at hen
      rw [Option.some.inj hen]
    rw [installLoop, hd] at h
    simp only [] at h
    split at h
    · cases h
    · have hg := changeLibPathsOnFile_grows E (paths E) hview (E.getInstallPath d)
        (s.emit (.copyYourself d))
      split at h
      · cases h
      · rename_i sa ha
        rw [ha] at hg
        have hpre1 : entry <+: sa.deps.map (paths E) := hpre.trans hg.2
        obtain ⟨d1, hd1, hen1⟩ := getElem?_of_view_initial (paths E) entry sa.deps hpre1 n hlt
        have hdd : paths E d1 = paths E d := Option.some.inj (hen1.symm.trans hen)
        rw [hd1] at h
        simp only [] at h
        have hf := fixRpathsOnFile_grows E (paths E) (E.getOriginalPath d1)
          (E.getInstallPath d1) sa
        split at h
        · cases h
        · rename_i sb hb
          rw [hb] at hf
          have hpre2 : entry <+: sb.deps.map (paths E) := hpre1.trans hf.2
          obtain ⟨hsteps, hlog⟩ := ih (n + 1) sb s1 h hpre2 (by omega)
          have hop : E.getOriginalPath d1 = E.getOriginalPath d := congrArg Prod.fst hdd
          have hip : E.getInstallPath d1 = E.getInstallPath d := congrArg Prod.snd hdd
          have hsa : steps E sa.log = steps E s.log
              ++ [Step.copyYourself (E.getOriginalPath d) (E.getInstallPath d),
                Step.changeLibPathsOnFile (E.getInstallPath d)] := by
            have hq : steps E sa.log = _ := steps_of_grows E (paths E) _ _ hg
            rw [hq, steps_emit, steps_emit]
            simp [stepOf]
          have hsb : steps E sb.log = steps E sa.log
              ++ [Step.fixRpathsOnFile (E.getOriginalPath d) (E.getInstallPath d)] := by
            have hq : steps E sb.log = _ := steps_of_grows E (paths E) _ _ hf
            rw [hq, steps_emit]
            simp [stepOf, hop, hip]
          refine ⟨?_, ?_⟩
          · rw [hsteps, hsb, hsa, hdrop]
            simp [paths]
          · exact (((log_grows_emit s _).trans
              ((log_grows_emit _ _).trans hg.log_extends)).trans
              ((log_grows_emit _ _).trans hf.log_extends)).trans hlog

theorem fixFilesLoop_steps {Dep : Type} (E : Env Dep) (hP : KeepsPaths E) (files : List Str) :
    ∀ (s s1 : State Dep), fixFilesLoop E files s = Outcome.done s1 →
      steps E s1.log = steps E s.log ++ files.flatMap fixSteps ∧ s.log <+: s1.log := by
  have hview : ∀ a b, paths E (E.mergeIfSameAs a b).2 = paths E b := by
    intro a b
    rw [paths, paths, (hP a b).1, (hP a b).2]
  induction files with
  | nil =>
    intro s s1 h
    rw [fixFilesLoop] at h
    cases h
    exact ⟨by simp, List.prefix_refl _⟩
  | cons f rest ih =>
    intro s s1 h
    rw [fixFilesLoop] at h
    have hg := changeLibPathsOnFile_grows E (paths E) hview f s
    split at h
    · cases h
    · rename_i sa ha
      rw [ha] at hg
      have hf := fixRpathsOnFile_grows E (paths E) f f sa
      split at h
      · cases h
      · rename_i sb hb
        rw [hb] at hf
        obtain ⟨hsteps, hlog⟩ := ih sb s1 h
        have hsa : steps E sa.log = steps E s.log ++ [Step.changeLibPathsOnFile f] := by
          have hq : steps E sa.log = _ := steps_of_grows E (paths E) _ _ hg
          rw [hq, steps_emit]
          simp [stepOf]
        have hsb : steps E sb.log = steps E sa.log ++ [Step.fixRpathsOnFile f f] := by
          have hq : steps E sb.log = _ := steps_of_grows E (paths E) _ _ hf
          rw [hq, steps_emit]
          simp [stepOf]
        refine ⟨?_, ?_⟩
        · rw [hsteps, hsb, hsa]
          simp [fixSteps]
        · exact (((log_grows_emit s _).trans hg.log_extends).trans
            ((log_grows_emit _ _).trans hf.log_extends)).trans hlog

theorem installSteps_flatMap {Dep : Type} (E : Env Dep) (l : List Dep) :
    (l.map (paths E)).flatMap (fun p =>
        [Step.copyYourself p.1 p.2, Step.changeLibPathsOnFile p.2,
          (Step.fixRpathsOnFile p.1 p.2 : Step Dep)])
      = l.flatMap (installSteps E) := by
  induction l with
  | nil => rfl
  | cons d t ih =>
    rw [List.map_cons, List.flatMap_cons, List.flatMap_cons, ih]
    rfl

theorem steps_map_print {Dep : Type} (E : Env Dep) (l : List Dep) :
    steps E (l.map Event.print) = l.map Step.summary := by
  induction l with
  | nil => rfl
  | cons d t ih =>
    rw [List.map_cons, List.map_cons, ← ih]
    rfl

/-- Claim C8: when `doneWithDeps_go` returns, its steps are, in this order: the summary
print of every record of the global list as it stood on entry, before anything else
than the blank line; with bundling on, the check of the output directory and then, for
each record of the global list on entry in list order, `copyYourself`,
`changeLibPathsOnFile` on its install path and `fixRpathsOnFile` from its original path
to its install path; then for each configured file in configuration order
`changeLibPathsOnFile` and `fixRpathsOnFile` of the file on itself.  With bundling off
the steps are the summary and those of the configured files. -/
theorem doneWithDeps_go_order {Dep : Type} (E : Env Dep) (hP : KeepsPaths E)
    (s s1 : State Dep) (hdone : doneWithDeps_go E s = Outcome.done s1) :
    steps E s1.log = steps E s.log ++ orderedSteps E s.deps
      ∧ (s.log ++ (Event.cout [newline] :: s.deps.map Event.print ++ [Event.cout [newline]]))
          <+: s1.log
      ∧ (E.bundleLibs = false →
          steps E s1.log = steps E s.log ++ s.deps.map Step.summary
            ++ E.filesToFix.flatMap fixSteps) := by
  have hmain : steps E s1.log = steps E s.log ++ orderedSteps E s.deps
      ∧ (s.log ++ (Event.cout [newline] :: s.deps.map Event.print ++ [Event.cout [newline]]))
          <+: s1.log := by
    unfold doneWithDeps_go at hdone
    simp only [] at hdone
    rw [printLoop_eq] at hdone
    have htake : ((s.emit (Event.cout [newline])).deps.drop 0).take s.deps.length = s.deps := by
      show (s.deps.drop 0).take s.deps.length = s.deps
      rw [List.drop_zero, List.take_length]
    rw [htake] at hdone
    generalize hsum : (({ s.emit (Event.cout [newline]) with
        log := (s.emit (Event.cout [newline])).log ++ s.deps.map Event.print } : State Dep).emit
        (Event.cout [newline])) = sm at hdone
    have hsmlog : sm.log
        = s.log ++ (Event.cout [newline] :: s.deps.map Event.print ++ [Event.cout [newline]]) := by
      rw [← hsum]
      simp [State.emit]
    have hsmdeps : sm.deps = s.deps := by rw [← hsum]; rfl
    have hsmsteps : steps E sm.log = steps E s.log ++ s.deps.map Step.summary := by
      rw [hsmlog, show (Event.cout [newline] :: s.deps.map Event.print ++ [Event.cout [newline]]
          : List (Event Dep))
        = [Event.cout [newline]] ++ (s.deps.map Event.print ++ [Event.cout [newline]]) from rfl,
        steps_append, steps_append, steps_append, steps_map_print]
      simp [steps, stepOf]
    split at hdone
    · cases hdone
    · rename_i sb hb
      obtain ⟨hfsteps, hflog⟩ := fixFilesLoop_steps E hP E.filesToFix sb s1 hdone
      by_cases hbl : E.bundleLibs = true
      · rw [if_pos hbl] at hb
        split at hb
        · cases hb
        · rename_i sc hc
          have hg := createDestDir_grows E (paths E) sm
          rw [hc] at hg
          have hpre : s.deps.map (paths E) <+: sc.deps.map (paths E) := by
            have := hg.2
            rw [show (sm.emit (Event.call Fn.createDestDir [])).deps = s.deps from hsmdeps] at this
            exact this
          obtain ⟨histeps, hilog⟩ := installLoop_steps E hP (s.deps.map (paths E))
            s.deps.length 0 sc sb hb hpre (by simp)
          have hsc : steps E sc.log = steps E sm.log ++ [Step.createDestDir] := by
            have hq : steps E sc.log = _ := steps_of_grows E (paths E) _ _ hg
            rw [hq, steps_emit]
            rfl
          refine ⟨?_, ?_⟩
          · rw [hfsteps, histeps, hsc, hsmsteps, List.drop_zero, installSteps_flatMap,
              orderedSteps, if_pos hbl]
            simp
          · rw [← hsmlog]
            exact (((log_grows_emit sm _).trans hg.log_extends).trans hilog).trans hflog
      · rw [if_neg hbl] at hb
        cases hb
        refine ⟨?_, ?_⟩
        · rw [hfsteps, hsmsteps, orderedSteps, if_neg hbl]
          simp
        · rw [← hsmlog]
          exact hflog
  refine ⟨hmain.1, hmain.2, ?_⟩
  intro hoff
  rw [hmain.1, orderedSteps, hoff]
  simp

/-- The model of the record from the spec keeps both paths in a merge. -/
theorem specEnv_keepsPaths (inspect : Str → Str) (patch : Str → Int) :
    KeepsPaths (specEnv inspect patch) := by
  intro a b
  show (Dependency.mergeIfSameAs a b).2.originalPath = b.originalPath
    ∧ "./libs/".toList ++ (Dependency.mergeIfSameAs a b).2.filename
      = "./libs/".toList ++ b.filename
  unfold Dependency.mergeIfSameAs
  split
  · split <;> exact ⟨rfl, rfl⟩
  · exact ⟨rfl, rfl⟩

set_option maxRecDepth 100000 in
/-- Witness of C8: one library with two recorded search paths and the file `app`. -/
theorem doneWithDeps_go_order_witness :
    steps (specEnv otoolFoo (fun _ => 0))
        (doneWithDeps_go (specEnv otoolFoo (fun _ => 0)) stateWithRpaths).state.log
      = steps (specEnv otoolFoo (fun _ => 0)) stateWithRpaths.log
        ++ orderedSteps (specEnv otoolFoo (fun _ => 0)) stateWithRpaths.deps :=
  (doneWithDeps_go_order (specEnv otoolFoo (fun _ => 0)) (specEnv_keepsPaths _ _)
    stateWithRpaths _ rfl).1

/-! ### The closure loop -/

end DylibBundler
